import Mathlib

/-!
Verification development for the agentSlurm core: a shallow embedding of
the script parser (PEG grammar path and regex fallback path,
`agentSlurm/agents/parser_agent.py`), the Lustre rule checker
(`agentSlurm/agents/lustre_agent.py`), and the knowledge-base updater
(`agentSlurm/utils/knowledge_base_updater.py`), together with theorems
settling the frozen claims about the specification.

Scope notes on the embedding:
* Python strings are modelled as Lean `String` or `List Char`; the
  whitespace classes used by the regular expressions are modelled at the
  ASCII level (the six ASCII whitespace characters for `\s`), which covers
  every input appearing in the claims.
* Python `int` values that the code produces are natural numbers here
  (line counters and stripe counts are never negative in the code).
* The two float literals the code stores (confidence 0.8 and 0.9) are
  modelled as rationals; the code never computes with them, it only
  stores and compares structure.
-/

set_option maxRecDepth 10000

namespace AgentSlurm

/-! ## Character classes

`isWsTab` is the PEG rule `ws = ~r"[ \t]*"`; `nlChar` is the character set
of `newline = ~r"[\n\r]+"`; `isPyWsp` is the ASCII part of the Python
regex class `\s`; `keyChar` is the class `[a-zA-Z0-9_-]` used both by the
PEG `option_key` rule and by the fallback regex group `[-\w]+` (ASCII). -/

def isWsTab (c : Char) : Bool := c = ' ' || c = '\t'

def nlChar (c : Char) : Bool := c = '\n' || c = '\r'

def isPyWsp (c : Char) : Bool :=
  c = ' ' || c = '\t' || c = '\n' || c = '\r' || c = Char.ofNat 11 || c = Char.ofNat 12

def isAsciiLetter (c : Char) : Bool := ('a' ≤ c && c ≤ 'z') || ('A' ≤ c && c ≤ 'Z')

def isAsciiDigit (c : Char) : Bool := '0' ≤ c && c ≤ '9'

def keyChar (c : Char) : Bool := isAsciiLetter c || isAsciiDigit c || c = '_' || c = '-'

/-- Character class of the PEG rule `option_val = ~r"[^\s#]+"`. -/
def optValChar (c : Char) : Bool := !isPyWsp c && !(c == '#')

/-! ## Generic list-of-characters helpers -/

/-- Literal prefix test: `leadsWith lit cs` holds when `cs` starts with `lit`. -/
def leadsWith : List Char → List Char → Bool
  | [], _ => true
  | _ :: _, [] => false
  | a :: as, b :: bs => a = b && leadsWith as bs

/-- Substring test, the Python `needle in hay` operator on strings. -/
def hasSub (needle : List Char) : List Char → Bool
  | [] => needle.isEmpty
  | c :: rest => leadsWith needle (c :: rest) || hasSub needle rest

/-- Lower-casing of a character list (ASCII, as used on the inputs at hand). -/
def lowerL (cs : List Char) : List Char := cs.map Char.toLower

/-- Python `str.strip()` restricted to the ASCII whitespace class. -/
def pyStrip (cs : List Char) : List Char :=
  ((cs.dropWhile isPyWsp).reverse.dropWhile isPyWsp).reverse

/-- Python `str.split("\n")`: every string splits into at least one piece. -/
def splitNL : List Char → List (List Char)
  | [] => [[]]
  | c :: cs =>
    match splitNL cs with
    | [] => [[]]
    | h :: t => if c = '\n' then [] :: h :: t else (c :: h) :: t

/-- Decimal digits to a natural number, the Python `int()` on a digit string. -/
def digitsToNat (ds : List Char) : Nat :=
  ds.foldl (fun a c => a * 10 + (c.toNat - '0'.toNat)) 0

/-- Index of the first occurrence of `needle` in the scanned list, the Python
`str.find` (restricted to the found case; `none` is Python result -1). -/
def firstIdxOf (needle : List Char) : List Char → Option Nat
  | [] => if needle.isEmpty then some 0 else none
  | c :: rest =>
    if leadsWith needle (c :: rest) then some 0
    else (firstIdxOf needle rest).map (· + 1)

/-- Drop a literal prefix, failing when it is not there. -/
def dropLit (lit cs : List Char) : Option (List Char) :=
  if leadsWith lit cs then some (cs.drop lit.length) else none

/-! ## Element model (`agentSlurm/models/job_context.py`)

`ParsedElement` and `UserCommand` keep the field names of the pydantic
models. `line_number` is a natural number: the code only ever stores
loop counters and 1-based enumeration indices there. -/

structure ParsedElement where
  element_type : String
  key : Option String := none
  value : Option String := none
  line_number : Nat
  raw_line : String
deriving DecidableEq

structure UserCommand where
  message : String
  line_number : Nat
deriving DecidableEq

/-! ## Command classification (shared shape of both parser paths)

`SlurmScriptVisitor.visit_command` uses the five-plus-one tool list,
`ParserAgent._fallback_regex_parse` a four-element one; both first test
`command_text.startswith("lfs")`. -/

def grammarTools : List String := ["bwa", "gatk", "samtools", "fastqc", "blastn", "vasp"]

def fallbackTools : List String := ["bwa", "gatk", "samtools", "fastqc"]

def classifyCommand (tools : List String) (text : List Char) : String :=
  if leadsWith "lfs".data text then "LUSTRE_COMMAND"
  else if tools.any (fun t => hasSub t.data text) then "TOOL_COMMAND"
  else "COMMAND"

/-! ## PEG grammar path (`ParserAgent.SLURM_GRAMMAR` + `SlurmScriptVisitor`)

The grammar is
```
script          = line*
line            = (sbatch / agent_comment / comment / command / empty) newline?
sbatch          = ws "#SBATCH" ws (option_value / option_flag) (ws comment_text)?
option_value    = option_key (ws "=" / ws) ws option_val
option_flag     = option_key
option_key      = ~r"-{1,2}[a-zA-Z0-9_-]+"
option_val      = ~r"[^\s#]+"
agent_comment   = ws "#" ws "Agent SLURM:" ws message
message         = ~r"[^\n]+"
comment         = ws "#" comment_text
comment_text    = ~r"[^\n]*"
command         = ws ~r"[^#\n]+" (ws comment)?
empty           = ws
ws              = ~r"[ \t]*"
newline         = ~r"[\n\r]+"
```
Each rule is embedded as a function consuming a character list and
returning the parsed payload plus the unconsumed suffix. Since the dash
is itself in the class `[a-zA-Z0-9_-]`, the regex `-{1,2}[a-zA-Z0-9_-]+`
matches at a position exactly when the maximal run of class characters
there starts with a dash and has length at least two, and it matches that
whole run; `pegOptionKey` implements this characterisation. -/

def pegOptionKey (cs : List Char) : Option (List Char × List Char) :=
  if 2 ≤ (cs.takeWhile keyChar).length ∧ (cs.takeWhile keyChar).head? = some '-' then
    some (cs.takeWhile keyChar, cs.dropWhile keyChar)
  else none

/-- The committed PEG choice `(ws "=" / ws)` followed by `ws`, applied after
the option key: consume whitespace, then an `=` with more whitespace when
one is there. -/
def pegEqSkip (cs4 : List Char) : List Char :=
  match cs4 with
  | '=' :: r => r.dropWhile isWsTab
  | _ => cs4

/-- The `option_val` capture of `option_value`, after the key. -/
def pegValOf (cs3 : List Char) : List Char :=
  (pegEqSkip (cs3.dropWhile isWsTab)).takeWhile optValChar

/-- The suffix after the `option_val` capture. -/
def pegAfterVal (cs3 : List Char) : List Char :=
  (pegEqSkip (cs3.dropWhile isWsTab)).dropWhile optValChar

/-- PEG rule `sbatch`. Returns the directive key, its optional value, and the
unconsumed suffix. The trailing `(ws comment_text)?` group always succeeds
and consumes up to the end of the physical line, so a successful `sbatch`
node always spans its whole line. -/
def pegSbatch (cs : List Char) : Option ((List Char × Option (List Char)) × List Char) :=
  match dropLit "#SBATCH".data (cs.dropWhile isWsTab) with
  | none => none
  | some cs1 =>
    match pegOptionKey (cs1.dropWhile isWsTab) with
    | none => none
    | some (k, cs3) =>
      -- option_value = option_key (ws "=" / ws) ws option_val, with the PEG
      -- choice committed to the first alternative that succeeds; when
      -- option_value fails the enclosing choice falls back to
      -- option_flag = option_key, which restarts right after the key.
      some ((if pegValOf cs3 = [] then (k, none) else (k, some (pegValOf cs3))),
        (((if pegValOf cs3 = [] then cs3 else pegAfterVal cs3).dropWhile
            isWsTab).dropWhile (fun c => !(c == '\n'))))

/-- PEG rule `agent_comment`; returns the `message` text and the suffix. -/
def pegAgentComment (cs : List Char) : Option (List Char × List Char) :=
  match cs.dropWhile isWsTab with
  | [] => none
  | c :: cs1 =>
    if c = '#' then
      match dropLit "Agent SLURM:".data (cs1.dropWhile isWsTab) with
      | none => none
      | some cs2 =>
        if (cs2.dropWhile isWsTab).takeWhile (fun x => !(x == '\n')) = [] then none
        else some ((cs2.dropWhile isWsTab).takeWhile (fun x => !(x == '\n')),
                   (cs2.dropWhile isWsTab).dropWhile (fun x => !(x == '\n')))
    else none

/-- PEG rule `comment`; produces no output, only consumes. -/
def pegComment (cs : List Char) : Option (List Char) :=
  match cs.dropWhile isWsTab with
  | [] => none
  | c :: cs1 => if c = '#' then some (cs1.dropWhile (fun x => !(x == '\n'))) else none

/-- PEG rule `command`; returns the unconsumed suffix (the caller recovers the
node text from the consumed length). The optional `(ws comment)?` group is
consumed only when a `#` follows. -/
def pegCommand (cs : List Char) : Option (List Char) :=
  if (cs.dropWhile isWsTab).takeWhile (fun c => !(c == '#') && !(c == '\n')) = [] then
    none
  else
    match pegComment ((cs.dropWhile isWsTab).dropWhile
        (fun c => !(c == '#') && !(c == '\n'))) with
    | some rest => some rest
    | none => some ((cs.dropWhile isWsTab).dropWhile (fun c => !(c == '#') && !(c == '\n')))

/-- Node text of a PEG node that consumed from `cs` down to `rest`. -/
def nodeTextOf (cs rest : List Char) : List Char := cs.take (cs.length - rest.length)

/-- The stripped command node text, `node.text.strip()` in
`visit_command`. -/
def pegCmdText (cs rest : List Char) : List Char := pyStrip (nodeTextOf cs rest)

/-- The comment-splitting step of `visit_command`:
`command_text.split("#")[0].strip()` when a `#` is present. -/
def pegCmdStripped (ct1 : List Char) : List Char :=
  if hasSub ['#'] ct1 then pyStrip (ct1.takeWhile (fun c => !(c == '#'))) else ct1

/-- One `line` node of the PEG, followed by the visitor actions of
`SlurmScriptVisitor` for that node. `idx` is the value of
`current_line_num` at the moment the children of the line node are
visited: the visitor is post-order, so the elements of the k-th line node
are built while the counter still holds k-1, and `visit_line` increments
it afterwards. The trailing `newline?` consumes a maximal `[\n\r]+` run. -/
def lineStep (idx : Nat) (cs : List Char) :
    Option ParsedElement × Option UserCommand × List Char :=
  match pegSbatch cs with
  | some ((k, v), rest) =>
    (some { element_type := "SBATCH", key := some ⟨k⟩,
            value := v.map (fun w => (⟨w⟩ : String)),
            line_number := idx, raw_line := ⟨pegCmdText cs rest⟩ },
     none, rest.dropWhile nlChar)
  | none =>
  match pegAgentComment cs with
  | some (m, rest) =>
    (none, some { message := ⟨pyStrip m⟩, line_number := idx }, rest.dropWhile nlChar)
  | none =>
  match pegComment cs with
  | some rest => (none, none, rest.dropWhile nlChar)
  | none =>
  match pegCommand cs with
  | some rest =>
    (if pegCmdStripped (pegCmdText cs rest) = [] then none
     else some { element_type := classifyCommand grammarTools (pegCmdStripped (pegCmdText cs rest)),
                 value := some ⟨pegCmdStripped (pegCmdText cs rest)⟩,
                 line_number := idx, raw_line := ⟨pegCmdText cs rest⟩ },
     none, rest.dropWhile nlChar)
  | none => (none, none, (cs.dropWhile isWsTab).dropWhile nlChar)

/-- The `script = line*` loop plus the completeness check of
`Grammar.parse`: parsimonious stops the `line*` loop at a zero-width
match and then raises `IncompleteParseError` (a `ParseError`) when input
remains; that outcome is the `none` of this function, as is fuel
exhaustion (which never occurs for fuel above the input length). -/
def pegLoop (fuel : Nat) (idx : Nat) (cs : List Char) :
    Option (List ParsedElement × List UserCommand) :=
  match fuel with
  | 0 => none
  | fuel + 1 =>
    if cs = [] then some ([], [])
    else
      let s := lineStep idx cs
      if s.2.2.length < cs.length then
        (pegLoop fuel (idx + 1) s.2.2).map
          (fun r => (s.1.toList ++ r.1, s.2.1.toList ++ r.2))
      else none

/-- Full grammar parse of a script, `self.grammar.parse` plus visiting. -/
def pegScript (s : String) : Option (List ParsedElement × List UserCommand) :=
  pegLoop (s.data.length + 1) 0 s.data

/-- The newline appended by `ParserAgent.run` before parsing. -/
def ensureNL (s : String) : String :=
  if s.data.getLast? = some '\n' then s else s ++ "\n"

/-! ## Fallback path (`ParserAgent._fallback_regex_parse`)

The three regexes are compiled into deterministic character-list
functions, with the backtracking of the Python engine resolved once and
for all:
* `sbatch_pattern = ^\s*#SBATCH\s+([-\w]+)(?:\s+(.+?))?(?:\s*#.*)?$`
* `agent_comment_pattern = ^\s*#\s*Agent SLURM:\s*(.+)$` (IGNORECASE)
* `command_pattern = ^\s*([^#\n].*)$`
-/

/-- Tail condition for the lazy group of `sbatch_pattern`: the remainder of
the line must be empty or be optional whitespace followed by `#`. -/
def tailOKfb (cs : List Char) : Bool :=
  cs.isEmpty || leadsWith ['#'] (cs.dropWhile isPyWsp)

/-- Lazy match of `(.+?)` against the start of a nonempty list: the shortest
nonempty prefix whose remainder satisfies `tailOKfb`. -/
def lazyVal : List Char → (List Char × List Char)
  | [] => ([], [])
  | c :: cs =>
    if tailOKfb cs then ([c], cs)
    else
      let r := lazyVal cs
      (c :: r.1, r.2)

/-- Fallback `sbatch_pattern` match: directive key and optional value.
When everything after the key is whitespace, the greedy `\s+` backtracks
by one character and the lazy group captures that last whitespace
character; this is the `getLast?` branch. -/
def fbSbatch (line : List Char) : Option (List Char × Option (List Char)) :=
  match dropLit "#SBATCH".data (line.dropWhile isPyWsp) with
  | none => none
  | some cs1 =>
    if cs1.takeWhile isPyWsp = [] then none
    else
      let cs2 := cs1.dropWhile isPyWsp
      let k := cs2.takeWhile keyChar
      if k = [] then none
      else
        let R := cs2.dropWhile keyChar
        if R = [] then some (k, none)
        else
          let w := R.takeWhile isPyWsp
          let Rr := R.dropWhile isPyWsp
          if w = [] then
            if leadsWith ['#'] R then some (k, none) else none
          else
            if Rr = [] then
              match R.getLast? with
              | some c => some (k, some [c])
              | none => none
            else some (k, some (lazyVal Rr).1)

/-- Fallback `agent_comment_pattern` match (case-insensitive marker),
returning the captured group. When everything after the marker is
whitespace, `\s*` backtracks and `(.+)` captures the final character. -/
def fbAgent (line : List Char) : Option (List Char) :=
  match line.dropWhile isPyWsp with
  | [] => none
  | c :: cs1 =>
    if c = '#' then
      let cs2 := cs1.dropWhile isPyWsp
      if leadsWith "agent slurm:".data (lowerL cs2) then
        let T := cs2.drop ("agent slurm:".length)
        let Tr := T.dropWhile isPyWsp
        if Tr ≠ [] then some Tr
        else
          match T.getLast? with
          | some c2 => some [c2]
          | none => none
      else none
    else none

/-- Fallback `command_pattern` match, returning the captured group. The
class `[^#\n]` accepts whitespace, so when the first non-whitespace
character is `#` the greedy `\s*` backtracks one character and the group
starts at the final whitespace character. -/
def fbCommand (line : List Char) : Option (List Char) :=
  let w := line.takeWhile isPyWsp
  match line.dropWhile isPyWsp with
  | c :: r =>
    if c = '#' then
      match w.getLast? with
      | some cw => some (cw :: c :: r)
      | none => none
    else some (c :: r)
  | [] =>
    match w.getLast? with
    | some cw => some [cw]
    | none => none

/-- One line of the fallback loop: the three patterns tried in order,
building at most one element or user command for the 1-based `idx`. -/
def fbLine (idx : Nat) (line : List Char) :
    Option ParsedElement × Option UserCommand :=
  match fbSbatch line with
  | some (k, v) =>
    (some { element_type := "SBATCH", key := some ⟨k⟩,
            value := v.map (fun w => (⟨w⟩ : String)),
            line_number := idx, raw_line := ⟨line⟩ }, none)
  | none =>
  match fbAgent line with
  | some m => (none, some { message := ⟨pyStrip m⟩, line_number := idx })
  | none =>
  match fbCommand line with
  | some g =>
    (if pyStrip g = [] then none
     else some { element_type := classifyCommand fallbackTools (pyStrip g),
                 value := some ⟨pyStrip g⟩,
                 line_number := idx, raw_line := ⟨line⟩ }, none)
  | none => (none, none)

/-- The `for line_num, line in enumerate(lines, start=1)` loop. -/
def fallbackLines : List (List Char) → Nat → List ParsedElement × List UserCommand
  | [], _ => ([], [])
  | l :: ls, idx =>
    let r := fallbackLines ls (idx + 1)
    let o := fbLine idx l
    (o.1.toList ++ r.1, o.2.toList ++ r.2)

/-- `ParserAgent._fallback_regex_parse` on the raw script. -/
def fallbackParse (raw : String) : List ParsedElement × List UserCommand :=
  fallbackLines (splitNL raw.data) 1

/-- `ParserAgent.run`: grammar parse of the newline-completed script, with
the fallback invoked exactly when the grammar signals a parse error. The
boolean records whether the fallback ran. -/
def parserRun (raw : String) : (List ParsedElement × List UserCommand) × Bool :=
  match pegScript (ensureNL raw) with
  | some r => (r, false)
  | none => (fallbackParse raw, true)

/-! ## MD5 (`hashlib.md5`), used for learned rule identifiers

A direct RFC 1321 implementation over byte lists, with 32-bit words as
natural numbers reduced modulo `2 ^ 32`. -/

def m32 : Nat := 4294967296

def add32 (a b : Nat) : Nat := (a + b) % m32

def rotl32 (x s : Nat) : Nat := ((x <<< s) % m32) ||| (x >>> (32 - s))

def not32 (x : Nat) : Nat := x ^^^ (m32 - 1)

def md5K : List Nat :=
  [0xd76aa478, 0xe8c7b756, 0x242070db, 0xc1bdceee,
   0xf57c0faf, 0x4787c62a, 0xa8304613, 0xfd469501,
   0x698098d8, 0x8b44f7af, 0xffff5bb1, 0x895cd7be,
   0x6b901122, 0xfd987193, 0xa679438e, 0x49b40821,
   0xf61e2562, 0xc040b340, 0x265e5a51, 0xe9b6c7aa,
   0xd62f105d, 0x02441453, 0xd8a1e681, 0xe7d3fbc8,
   0x21e1cde6, 0xc33707d6, 0xf4d50d87, 0x455a14ed,
   0xa9e3e905, 0xfcefa3f8, 0x676f02d9, 0x8d2a4c8a,
   0xfffa3942, 0x8771f681, 0x6d9d6122, 0xfde5380c,
   0xa4beea44, 0x4bdecfa9, 0xf6bb4b60, 0xbebfbc70,
   0x289b7ec6, 0xeaa127fa, 0xd4ef3085, 0x04881d05,
   0xd9d4d039, 0xe6db99e5, 0x1fa27cf8, 0xc4ac5665,
   0xf4292244, 0x432aff97, 0xab9423a7, 0xfc93a039,
   0x655b59c3, 0x8f0ccc92, 0xffeff47d, 0x85845dd1,
   0x6fa87e4f, 0xfe2ce6e0, 0xa3014314, 0x4e0811a1,
   0xf7537e82, 0xbd3af235, 0x2ad7d2bb, 0xeb86d391]

def md5S : List Nat :=
  [7, 12, 17, 22, 7, 12, 17, 22, 7, 12, 17, 22, 7, 12, 17, 22,
   5, 9, 14, 20, 5, 9, 14, 20, 5, 9, 14, 20, 5, 9, 14, 20,
   4, 11, 16, 23, 4, 11, 16, 23, 4, 11, 16, 23, 4, 11, 16, 23,
   6, 10, 15, 21, 6, 10, 15, 21, 6, 10, 15, 21, 6, 10, 15, 21]

def md5F (i b c d : Nat) : Nat :=
  if i < 16 then (b &&& c) ||| (not32 b &&& d)
  else if i < 32 then (b &&& d) ||| (c &&& not32 d)
  else if i < 48 then b ^^^ c ^^^ d
  else c ^^^ (b ||| not32 d)

def md5G (i : Nat) : Nat :=
  if i < 16 then i
  else if i < 32 then (5 * i + 1) % 16
  else if i < 48 then (3 * i + 5) % 16
  else (7 * i) % 16

def leBytes : Nat → Nat → List Nat
  | 0, _ => []
  | k + 1, n => n % 256 :: leBytes k (n / 256)

def md5Pad (msg : List Nat) : List Nat :=
  msg ++ [128] ++ List.replicate ((120 - (msg.length + 1) % 64) % 64) 0
      ++ leBytes 8 (8 * msg.length)

def toWords : List Nat → List Nat
  | b0 :: b1 :: b2 :: b3 :: rest =>
    (b0 + 256 * (b1 + 256 * (b2 + 256 * b3))) :: toWords rest
  | _ => []

def wordChunks : List Nat → List (List Nat)
  | w0 :: w1 :: w2 :: w3 :: w4 :: w5 :: w6 :: w7 ::
    w8 :: w9 :: w10 :: w11 :: w12 :: w13 :: w14 :: w15 :: rest =>
    [w0, w1, w2, w3, w4, w5, w6, w7, w8, w9, w10, w11, w12, w13, w14, w15]
      :: wordChunks rest
  | _ => []

def md5Block (st : Nat × Nat × Nat × Nat) (M : List Nat) : Nat × Nat × Nat × Nat :=
  let r := (List.range 64).foldl
    (fun (s : Nat × Nat × Nat × Nat) i =>
      let f := md5F i s.2.1 s.2.2.1 s.2.2.2
      let tmp := add32 (add32 (add32 s.1 f) (md5K.getD i 0)) (M.getD (md5G i) 0)
      (s.2.2.2, add32 s.2.1 (rotl32 tmp (md5S.getD i 0)), s.2.1, s.2.2.1))
    st
  (add32 st.1 r.1, add32 st.2.1 r.2.1, add32 st.2.2.1 r.2.2.1, add32 st.2.2.2 r.2.2.2)

def md5Bytes (msg : List Nat) : List Nat :=
  let chunks := wordChunks (toWords (md5Pad msg))
  let st := chunks.foldl md5Block (0x67452301, 0xefcdab89, 0x98badcfe, 0x10325476)
  leBytes 4 st.1 ++ leBytes 4 st.2.1 ++ leBytes 4 st.2.2.1 ++ leBytes 4 st.2.2.2

def hexDigit (n : Nat) : Char := ("0123456789abcdef".data).getD n '0'

def byteToHex (b : Nat) : List Char := [hexDigit (b / 16), hexDigit (b % 16)]

/-- Python `hashlib.md5(x).hexdigest()` for a byte list. -/
def md5Hex (msg : List Nat) : String := ⟨((md5Bytes msg).map byteToHex).flatten⟩

/-- UTF-8 encoding of one code point. -/
def utf8EncodeNat (n : Nat) : List Nat :=
  if n < 0x80 then [n]
  else if n < 0x800 then [0xC0 + n / 64, 0x80 + n % 64]
  else if n < 0x10000 then [0xE0 + n / 4096, 0x80 + n / 64 % 64, 0x80 + n % 64]
  else [0xF0 + n / 262144, 0x80 + n / 4096 % 64, 0x80 + n / 64 % 64, 0x80 + n % 64]

/-- Python `pattern.encode()`: UTF-8 bytes of a string. -/
def utf8Bytes (s : String) : List Nat :=
  (s.data.map (fun c => utf8EncodeNat c.toNat)).flatten

/-- Rule identifier derivation of `create_rule_from_pattern`:
`LEARNED-` followed by the uppercased first 8 hex digits of the MD5 of
the pattern. -/
def ruleIdOfPattern (p : String) : String :=
  "LEARNED-" ++ ⟨((md5Hex (utf8Bytes p)).take 8).data.map Char.toUpper⟩

/-! ## Lustre agent (`agentSlurm/agents/lustre_agent.py`) -/

inductive UserProfile where
  | Basic | Medium | Advanced
deriving DecidableEq

structure Finding where
  agent_id : String
  rule_id : String
  severity : String
  title : String
  message : String
  line_number : Option Nat
  confidence : ℚ := 1
  category : Option String
deriving DecidableEq

def largeFileTools : List String :=
  ["bwa", "gatk", "samtools", "vasp", "star", "hisat2", "bowtie2"]

def smallFileTools : List String :=
  ["fastqc", "multiqc", "blastn", "blastp", "diamond"]

def lustre001Feedback (p : UserProfile) : String × String :=
  match p with
  | .Basic =>
    ("Missing Lustre Striping Configuration",
     "Your script appears to work with large files but doesn\x27t specify Lustre striping. For better I/O performance on large files, consider adding an \x27lfs setstripe\x27 command to optimize how your data is distributed across Lustre storage servers.")
  | .Medium =>
    ("Missing Lustre Striping Configuration",
     "This workflow appears to process large files (detected tools like bwa, gatk, etc.) without explicit Lustre striping configuration. For large-file I/O patterns, setting an appropriate stripe count and size using \x27lfs setstripe\x27 can significantly improve performance. Consider adding \x27lfs setstripe -c [n] -s [size] [directory]\x27 where appropriate.")
  | .Advanced =>
    ("Suboptimal Lustre I/O Configuration",
     "Large-file workflow detected without Lustre striping optimization. For optimal performance with tools like bwa/gatk, consider configuring striping with an appropriate stripe count and size. For example: \x27lfs setstripe -c [n] -s [size] $OUTPUT_DIR\x27 where n is the number of OSTs you want to stripe across and size is the stripe size (e.g., 16M, 64M).")

def lustre002Feedback (p : UserProfile) : String × String :=
  match p with
  | .Basic =>
    ("Inefficient File Storage Setting",
     "Your script appears to be creating many small files. Using \x27lfs setstripe -c >1\x27 can slow down the filesystem. For this type of job, it\x27s best to let the system use the default setting or explicitly set \x27lfs setstripe -c 1\x27.")
  | .Medium =>
    ("Suboptimal Lustre Striping for Small Files",
     "This workflow seems to be generating many small files (e.g., QC reports). Wide striping (stripe count > 1) creates unnecessary metadata overhead for small files. Consider setting \x27lfs setstripe -c 1\x27 on your output directory to improve I/O efficiency and reduce load on the MDS.")
  | .Advanced =>
    ("Potential MDS Contention due to Wide Striping on Small-File Workflow",
     "The inferred small-file I/O pattern of this workflow combined with a wide stripe setting may lead to excessive metadata operations and potential MDS contention. Recommend setting a stripe count of 1 for the output directory to optimize for this I/O profile.")

/-- The regex search `re.search(r"-c\s+(\d+)", value)`: first position where
`-c`, one or more whitespace characters, and a maximal digit run match;
the digit run as a number. -/
def matchDashC : List Char → Option Nat
  | '-' :: 'c' :: r =>
    if r.takeWhile isPyWsp = [] then none
    else
      let d := (r.dropWhile isPyWsp).takeWhile isAsciiDigit
      if d = [] then none else some (digitsToNat d)
  | _ => none

def searchDashC : List Char → Option Nat
  | [] => none
  | c :: cs =>
    match matchDashC (c :: cs) with
    | some n => some n
    | none => searchDashC cs

def hasToolIn (tools : List String) (e : ParsedElement) : Bool :=
  e.element_type == "TOOL_COMMAND" &&
    (match e.value with
     | some v => tools.any (fun t => hasSub t.data (lowerL v.data))
     | none => false)

def hasLargeFileTools (es : List ParsedElement) : Bool := es.any (hasToolIn largeFileTools)

def hasSmallFileTools (es : List ParsedElement) : Bool := es.any (hasToolIn smallFileTools)

def isSetstripeElem (e : ParsedElement) : Bool :=
  e.element_type == "LUSTRE_COMMAND" &&
    (match e.value with
     | some v => hasSub "setstripe".data (lowerL v.data)
     | none => false)

/-- The wide-striping test applied in both loops of `LustreAgent.run`:
a `LUSTRE_COMMAND` element mentioning `setstripe` whose value matches
`-c\s+(\d+)` with a count above 1. -/
def isWideElem (e : ParsedElement) : Bool :=
  isSetstripeElem e &&
    (match e.value with
     | some v => match searchDashC v.data with
                 | some n => decide (1 < n)
                 | none => false
     | none => false)

/-- `LustreAgent.run` restricted to its observable effect: the findings
appended to the context. -/
def lustreRun (es : List ParsedElement) (p : UserProfile) : List Finding :=
  (if hasLargeFileTools es && !(es.any isSetstripeElem) then
     [{ agent_id := "Lustre Agent", rule_id := "LUSTRE-001", severity := "Warning",
        title := (lustre001Feedback p).1, message := (lustre001Feedback p).2,
        line_number := none, category := some "LUSTRE" }]
   else [])
  ++
  (if hasSmallFileTools es && es.any isWideElem then
     [{ agent_id := "Lustre Agent", rule_id := "LUSTRE-002", severity := "Warning",
        title := (lustre002Feedback p).1, message := (lustre002Feedback p).2,
        line_number := (es.find? isWideElem).map (fun e => e.line_number),
        category := some "LUSTRE" }]
   else [])

/-! ## Knowledge base updater (`agentSlurm/utils/knowledge_base_updater.py`)

Rules and insights flow through the Python code as dynamic dictionaries;
they are embedded as association lists over a value type `Val` covering
the shapes the code stores and probes. -/

inductive Val where
  | vstr (s : String)
  | vrat (q : ℚ)
  | vbool (b : Bool)
  | vnull
  | vlist (l : List Val)
  | vdict (d : List (String × Val))

abbrev Dict := List (String × Val)

def dictHas (d : Dict) (k : String) : Bool := d.any (fun p => p.1 == k)

def dictGet? (d : Dict) (k : String) : Option Val :=
  (d.find? (fun p => p.1 == k)).map (fun p => p.2)

def asStr? : Option Val → Option String
  | some (.vstr s) => some s
  | _ => none

/-- String value of a top-level field of a rule dictionary. -/
def fieldStr? (r : Dict) (k : String) : Option String := asStr? (dictGet? r k)

/-! ### `validate_rule`

The outcome is `ok`, a rejection naming the first failed check (the code
prints the reason and returns `False`), or `raised` for the inputs on
which the Python code would raise a `TypeError` (membership test or
indexing on a non-container `feedback` value) — `validate_rule` has no
exception handler of its own. -/

inductive VReason where
  | missingField (f : String)
  | invalidSeverity
  | missingProfile (p : String)
  | badProfileShape (p : String)
deriving DecidableEq

inductive VResult where
  | ok
  | rejected (r : VReason)
  | raised
deriving DecidableEq

def requiredFields : List String :=
  ["rule_id", "description", "agent", "severity", "feedback"]

def feedbackProfiles : List String := ["Basic", "Medium", "Advanced"]

/-- Python `p in v` for a string `p` and an arbitrary value `v`: substring
test on strings, key test on dicts, elementwise equality on lists, and a
`TypeError` (`none`) on scalars. -/
def pyMember (p : String) (v : Val) : Option Bool :=
  match v with
  | .vstr s => some (hasSub p.data s.data)
  | .vdict d => some (dictHas d p)
  | .vlist l => some (l.any (fun x => match x with | .vstr s => s == p | _ => false))
  | _ => none

/-- Python `v[p]` for a string key: lookup on dicts, `TypeError` otherwise. -/
def pyIndex (v : Val) (p : String) : Option Val :=
  match v with
  | .vdict d => dictGet? d p
  | _ => none

/-- String entry `rule["feedback"][profile][k]` of a rule dictionary. -/
def tierStr? (r : Dict) (profile k : String) : Option String :=
  match dictGet? r "feedback" with
  | some fb =>
    match pyIndex fb profile with
    | some t => asStr? (pyIndex t k)
    | none => none
  | none => none

def checkProfiles (fb : Val) : List String → VResult
  | [] => .ok
  | p :: ps =>
    match pyMember p fb with
    | none => .raised
    | some false => .rejected (.missingProfile p)
    | some true =>
      match pyIndex fb p with
      | none => .raised
      | some v =>
        match v with
        | .vdict d =>
          if dictHas d "title" && dictHas d "message" then checkProfiles fb ps
          else .rejected (.badProfileShape p)
        | _ => .rejected (.badProfileShape p)

def firstMissingField (r : Dict) : List String → Option String
  | [] => none
  | f :: fs => if dictHas r f then firstMissingField r fs else some f

/-- `KnowledgeBaseUpdater.validate_rule` with its checks in source order:
required fields, then the severity enumeration, then the three feedback
profiles with their `title`/`message` keys. -/
def validateRun (r : Dict) : VResult :=
  match firstMissingField r requiredFields with
  | some f => .rejected (.missingField f)
  | none =>
    let sevOk := match dictGet? r "severity" with
                 | some (.vstr s) => ["INFO", "WARNING", "ERROR"].any (fun x => x == s)
                 | _ => false
    if !sevOk then .rejected .invalidSeverity
    else
      match dictGet? r "feedback" with
      | some fb => checkProfiles fb feedbackProfiles
      | none => .raised   -- unreachable: the feedback field was checked present

/-- Boolean result of `validate_rule`; `none` when the call raises. -/
def validateRule (r : Dict) : Option Bool :=
  match validateRun r with
  | .ok => some true
  | .rejected _ => some false
  | .raised => none

/-! ### `_suggest_fix_for_pattern` and `create_rule_from_pattern` -/

def suggestFixForPattern (pattern : String) : String :=
  let pl := lowerL pattern.data
  if hasSub "lfs setstripe".data pl && !hasSub "-c 1".data pl then
    "using appropriate Lustre striping (consider lfs setstripe -c 1 for small files or appropriate values for large files)"
  else if !hasSub "set -e".data pl then
    "adding \x27set -e\x27 to ensure script exits on error"
  else if hasSub "module load".data pl then
    "ensuring all required modules are loaded before use"
  else if hasSub "SBATCH".data pl then
    -- dead branch in the source: an upper-case needle never occurs in a
    -- lower-cased haystack; kept as written
    "reviewing SBATCH directives for optimal resource allocation"
  else
    "reviewing this pattern against HPC best practices"

/-- `create_rule_from_pattern`, with `datetime.now().isoformat()` passed in
as the explicit argument `now`. -/
def createRuleDict (pattern context now : String) : Dict :=
  [("rule_id", .vstr (ruleIdOfPattern pattern)),
   ("description", .vstr ("Learned rule for pattern: " ++ pattern.take 50 ++ "...")),
   ("agent", .vstr "Knowledge Base Updater"),
   ("severity", .vstr "WARNING"),
   ("trigger_conditions", .vlist [.vdict
      [("type", .vstr "pattern_match"), ("pattern", .vstr pattern), ("context", .vstr context)]]),
   ("feedback", .vdict
      [("Basic", .vdict
         [("title", .vstr ("Potential issue detected: " ++ pattern.take 30 ++ "...")),
          ("message", .vstr ("The script contains a pattern that might cause issues: \x27" ++ pattern ++ "\x27. Consider reviewing this section."))]),
       ("Medium", .vdict
         [("title", .vstr ("Pattern \x27" ++ pattern ++ "\x27 detected")),
          ("message", .vstr ("This script contains the pattern \x27" ++ pattern ++ "\x27 which was identified by LLM analysis as potentially problematic. The recommended approach is to " ++ suggestFixForPattern pattern ++ "."))]),
       ("Advanced", .vdict
         [("title", .vstr ("Suboptimal pattern: " ++ pattern)),
          ("message", .vstr ("The pattern \x27" ++ pattern ++ "\x27 may lead to performance or configuration issues. Consider implementing " ++ suggestFixForPattern pattern ++ " for optimal results."))])]),
   ("documentation_url", .vnull),
   ("learned_from_llm", .vbool true),
   ("confidence", .vrat (4 / 5)),
   ("created_at", .vstr now)]

/-! ### `_extract_patterns_from_insight`

The two `re.findall` calls are compiled to scanners; the keyword fallback
reproduces the `max(0, ...)`, `min(len, ...)` windowing; the final
`list(set(patterns))` makes the order of the returned Python list
unspecified across runs, so the extraction result is exposed as the
`Finset` of patterns, its run-independent denotation. -/

def btGo : List Char → Option (List Char) → List (List Char)
  | [], _ => []
  | c :: rest, none => if c = '`' then btGo rest (some []) else btGo rest none
  | c :: rest, some acc =>
    if c = '`' then
      if acc = [] then btGo rest (some [])
      else acc.reverse :: btGo rest none
    else btGo rest (some (c :: acc))

/-- All matches of `re.findall(r"‵([^‵]+)‵", message)` (backtick-delimited
spans), left to right and non-overlapping. -/
def backtickSpans (cs : List Char) : List (List Char) := btGo cs none

/-- One attempt of the regex `[a-zA-Z][a-zA-Z0-9_-]+\s+[^\s]+` anchored at
the start of the list: the match and the suffix after it. -/
def attemptCmd : List Char → Option (List Char × List Char)
  | [] => none
  | c :: r =>
    if isAsciiLetter c then
      if r.takeWhile keyChar = [] then none
      else
        let r2 := r.dropWhile keyChar
        if r2.takeWhile isPyWsp = [] then none
        else
          let r3 := r2.dropWhile isPyWsp
          let t := r3.takeWhile (fun x => !isPyWsp x)
          if t = [] then none
          else some (c :: (r.takeWhile keyChar ++ r2.takeWhile isPyWsp ++ t),
                     r3.dropWhile (fun x => !isPyWsp x))
    else none

/-- All matches of `re.findall(r"([a-zA-Z][a-zA-Z0-9_-]+\s+[^\s]+)", m)`,
left to right and non-overlapping; the fuel argument (instantiated with
the input length) only serves structural recursion. -/
def cmdScan : Nat → List Char → List (List Char)
  | 0, _ => []
  | _, [] => []
  | fuel + 1, c :: rest =>
    match attemptCmd (c :: rest) with
    | some (m, after) => m :: cmdScan fuel after
    | none => cmdScan fuel rest

def hpcKeywords : List String :=
  ["SBATCH", "lfs", "setstripe", "module", "srun", "mpirun", "export", "ulimit"]

/-- Keyword fallback of `_extract_patterns_from_insight`: a clipped window
of context around the first occurrence of each keyword found in the
message, deduplicated in order. -/
def keywordContexts (message : List Char) : List (List Char) :=
  hpcKeywords.foldl
    (fun acc kw =>
      if hasSub (lowerL kw.data) (lowerL message) then
        match firstIdxOf (lowerL kw.data) (lowerL message) with
        | some i =>
          let start := i - 20
          let stop := min message.length (i + 40)
          let ctx := pyStrip ((message.drop start).take (stop - start))
          if ctx ≠ [] ∧ ctx ∉ acc then acc ++ [ctx] else acc
        | none => acc
      else acc)
    []

def extractRawPatterns (message : List Char) : List (List Char) :=
  let allP := backtickSpans message ++ cmdScan message.length message
  let filtered := (allP.map pyStrip).filter (fun p => 5 < p.length && p.length < 100)
  if filtered = [] then keywordContexts message else filtered

structure Insight where
  title : Option String := none
  message : Option String := none
  severity : Option String := none
  confidence : Option ℚ := none
  line_number : Option Nat := none

def extractPatternsList (message : String) : List String :=
  (extractRawPatterns message.data).map (fun cs => (⟨cs⟩ : String))

/-- `_extract_patterns_from_insight`: the set of patterns extracted from
`insight.get("message", "")`; the `script_content` parameter of the
Python function is unused by its body and kept here for the signature. -/
def extractPatterns (i : Insight) (scriptContent : String) : Finset String :=
  (extractPatternsList (i.message.getD "")).toFinset

/-- The guard `"message" in insight and len(insight["message"]) > 10` of
`analyze_and_create_rules`. -/
def insightQualifies (i : Insight) : Bool :=
  match i.message with
  | some m => decide (10 < m.length)
  | none => false

/-- `analyze_and_create_rules`: for each qualifying insight, one candidate
per extracted pattern, kept when `validate_rule` accepts it. The Python
per-insight pattern list is `list(set(...))` in an unspecified order;
`dedup` of the extraction list is one representative order, and the
claims only use order-independent observables (length, membership). -/
def analyzeAndCreateRules (scriptContent : String) (insights : List Insight)
    (now : String) : List Dict :=
  insights.flatMap (fun i =>
    if insightQualifies i then
      ((extractPatternsList (i.message.getD "")).dedup).flatMap (fun p =>
        let r := createRuleDict p (scriptContent.take 200) now
        if validateRule r = some true then [r] else [])
    else [])

/-! ### `update_knowledge_base`

The filesystem is a store slot at the configured path plus a family of
timestamped backup files; `Fault` injects an exception at one of the
fallible steps (`shutil.copy2`, the read + `yaml.safe_load`, the routing
loop, the truncating write). A fault at the write step leaves the store
truncated or half written (`FileContent.corrupt`): the code opens the
store with mode `w` in place, there is no write-to-temp-and-rename. -/

structure KB where
  version : String
  last_updated : String
  slurm_rules : List Dict
  lustre_rules : List Dict
  workflow_patterns : List Dict
  general_logic_rules : List Dict

inductive FileContent where
  | yaml (kb : KB)
  | corrupt

structure FSState where
  store : Option FileContent
  backups : List (String × FileContent)

inductive Fault where
  | fnone | atBackup | atLoad | atMerge | atWrite
deriving DecidableEq

/-- The fresh store structure created when no file exists. -/
def freshKB (now : String) : KB :=
  { version := "1.0.0", last_updated := now,
    slurm_rules := [], lustre_rules := [], workflow_patterns := [],
    general_logic_rules := [] }

/-- Loading the store: parse failure of an existing corrupt store is an
exception (`none`); a missing store is initialized fresh. -/
def loadStore (now : String) : Option FileContent → Option KB
  | some (.yaml kb) => some kb
  | some .corrupt => none
  | none => some (freshKB now)

/-- Category routing by keywords in the rule description; `none` models the
`KeyError`/`AttributeError` raised when a rule has no string description. -/
def routeRule (kb : KB) (r : Dict) : Option KB :=
  match dictGet? r "description" with
  | some (.vstr d) =>
    let dl := lowerL d.data
    if hasSub "lfs".data dl || hasSub "lustre".data dl then
      some { kb with lustre_rules := kb.lustre_rules ++ [r] }
    else if ["sbatch", "resource", "memory", "cpu", "time"].any
        (fun k => hasSub k.data dl) then
      some { kb with slurm_rules := kb.slurm_rules ++ [r] }
    else
      some { kb with general_logic_rules := kb.general_logic_rules ++ [r] }
  | _ => none

def routeAll (kb : KB) : List Dict → Option KB
  | [] => some kb
  | r :: rs =>
    match routeRule kb r with
    | some kb2 => routeAll kb2 rs
    | none => none

/-- `shutil.copy2` to the timestamped backup path, overwriting a backup of
the same timestamp. -/
def upsertBackup (ts : String) (c : FileContent) (bs : List (String × FileContent)) :
    List (String × FileContent) :=
  (ts, c) :: bs.filter (fun b => b.1 != ts)

/-- `update_knowledge_base`: backup (when requested and a store exists),
load or initialize, route every rule, stamp `last_updated` and set the
version to the literal `"1.0.1"` (the code comment says increment), then
write the whole store back in place. The catch-all `except` turns every
injected fault into a `False` return. -/
def updateKnowledgeBase (fs : FSState) (newRules : List Dict) (backup : Bool)
    (now ts : String) (fault : Fault) : Bool × FSState :=
  match fs.store, backup with
  | some c, true =>
    if fault = .atBackup then (false, fs)
    else updateFromLoad { fs with backups := upsertBackup ts c fs.backups } newRules now fault
  | _, _ => updateFromLoad fs newRules now fault
where
  updateFromLoad (fs1 : FSState) (newRules : List Dict) (now : String) (fault : Fault) :
      Bool × FSState :=
    if fault = .atLoad then (false, fs1)
    else
      match loadStore now fs1.store with
      | none => (false, fs1)
      | some kb0 =>
        if fault = .atMerge then (false, fs1)
        else
          match routeAll kb0 newRules with
          | none => (false, fs1)
          | some kb1 =>
            let kb2 := { kb1 with last_updated := now, version := "1.0.1" }
            if fault = .atWrite then (false, { fs1 with store := some .corrupt })
            else (true, { fs1 with store := some (.yaml kb2) })

/-- `_count_total_rules` on a well-formed store document: the sum of the
lengths of the four list-valued sections. -/
def totalRules (kb : KB) : Nat :=
  kb.slurm_rules.length + kb.lustre_rules.length +
    kb.workflow_patterns.length + kb.general_logic_rules.length

def storeKB? (fs : FSState) : Option KB :=
  match fs.store with
  | some (.yaml kb) => some kb
  | _ => none

def storeVersion? (fs : FSState) : Option String := (storeKB? fs).map (fun k => k.version)

def storeTotal? (fs : FSState) : Option Nat := (storeKB? fs).map totalRules

/-! ## Well-formed scripts for the parser-agreement claim

A well-formed script is a sequence of canonical directive lines
(`#SBATCH <key>` or `#SBATCH <key> <value>`) and command lines. The side
conditions collect exactly what the two parsers need to agree on the
`(element_type, line_number)` projection modulo the one-line shift:
space-separated directive values (the fallback regex does not match the
`=` form at all), command lines with no `#` and not mentioning the two
tools present only in the grammar path list. -/

inductive WfLine where
  | dline (key : List Char) (val : Option (List Char))
  | cline (text : List Char)

def wfLineB : WfLine → Bool
  | .dline k v =>
    decide (2 ≤ k.length) && (k.head? == some '-') && k.all keyChar &&
      (match v with
       | some w => !w.isEmpty && w.all optValChar && !(w.head? == some '=')
       | none => true)
  | .cline t =>
    !t.isEmpty && t.all (fun c => !(c == '#') && !(c == '\n') && !(c == '\r')) &&
      (match t.head? with | some c => !isPyWsp c | none => true) &&
      (match t.getLast? with | some c => !isPyWsp c | none => true) &&
      !hasSub "blastn".data t && !hasSub "vasp".data t

def renderLine : WfLine → List Char
  | .dline k v => "#SBATCH ".data ++ k ++ (match v with | some w => ' ' :: w | none => [])
  | .cline t => t

def scriptOf (ls : List WfLine) : List Char :=
  (ls.map (fun l => renderLine l ++ ['\n'])).flatten

def lineType : WfLine → String
  | .dline _ _ => "SBATCH"
  | .cline t => classifyCommand grammarTools t

/-- Expected `(element_type, line_number)` projection of a well-formed
script, with lines numbered from `idx`. -/
def projFrom (idx : Nat) : List WfLine → List (String × Nat)
  | [] => []
  | l :: ls => (lineType l, idx) :: projFrom (idx + 1) ls

/-- Projection of an element onto `(element_type, line_number)`. -/
def projTL (e : ParsedElement) : String × Nat := (e.element_type, e.line_number)

/-! ## Claim-side validation procedure (for the corrected claim C2)

An independent rendering of the amended validation contract: the first
missing field of the five, in order; then the severity enumeration; then
the first feedback profile, in order, that is missing or lacks the
`title`/`message` keys. Compared against `validateRun` below. -/

def tierProblem (fb : Val) (p : String) : Option VResult :=
  match pyMember p fb with
  | none => some .raised
  | some false => some (.rejected (.missingProfile p))
  | some true =>
    match pyIndex fb p with
    | none => some .raised
    | some (.vdict d) =>
      if dictHas d "title" && dictHas d "message" then none
      else some (.rejected (.badProfileShape p))
    | some _ => some (.rejected (.badProfileShape p))

def claimValidate (r : Dict) : VResult :=
  match requiredFields.find? (fun f => !dictHas r f) with
  | some f => .rejected (.missingField f)
  | none =>
    if !(match dictGet? r "severity" with
         | some (.vstr s) => ["INFO", "WARNING", "ERROR"].any (fun x => x == s)
         | _ => false) then .rejected .invalidSeverity
    else
      match dictGet? r "feedback" with
      | some fb => (feedbackProfiles.findSome? (tierProblem fb)).getD .ok
      | none => .raised

/-! ## Concrete fixtures used by counterexamples and witnesses -/

/-- A well-shaped feedback mapping with all three profiles. -/
def fbOK : Val :=
  .vdict [("Basic", .vdict [("title", .vstr "t"), ("message", .vstr "m")]),
          ("Medium", .vdict [("title", .vstr "t"), ("message", .vstr "m")]),
          ("Advanced", .vdict [("title", .vstr "t"), ("message", .vstr "m")])]

/-- A feedback mapping whose three profiles carry empty titles and
messages. -/
def fbEmptyTexts : Val :=
  .vdict [("Basic", .vdict [("title", .vstr ""), ("message", .vstr "")]),
          ("Medium", .vdict [("title", .vstr ""), ("message", .vstr "")]),
          ("Advanced", .vdict [("title", .vstr ""), ("message", .vstr "")])]

/-- A candidate with every field the code checks, no `confidence` field,
and empty feedback texts. -/
def ruleNoConfidence : Dict :=
  [("rule_id", .vstr "R1"), ("description", .vstr "d"), ("agent", .vstr "a"),
   ("severity", .vstr "WARNING"), ("feedback", fbEmptyTexts)]

/-- Two rules with keyword-free descriptions (routed to the general pool). -/
def ruleBatch1 : Dict := [("description", .vstr "first learned rule")]

def ruleBatch2 : Dict := [("description", .vstr "second learned rule")]

/-- An existing store: the fresh structure persisted at version 1.0.0. -/
def fsExisting : FSState := { store := some (.yaml (freshKB "t0")), backups := [] }

/-- Two successive successful updates with disjoint batches and distinct
timestamps, starting from the existing store. -/
def c4step1 : Bool × FSState :=
  updateKnowledgeBase fsExisting [ruleBatch1] true "n1" "ts1" .fnone

def c4step2 : Bool × FSState :=
  updateKnowledgeBase c4step1.2 [ruleBatch2] true "n2" "ts2" .fnone

/-- The advisory finding of end-to-end scenario C. -/
def insightC8 : Insight :=
  { message := some "Consider using `set -e` for safety",
    confidence := some (9 / 10), severity := some "Warning" }

def scriptC8 : String := "#!/bin/bash\n"

/-- Elements for the scenario A witness: a large-file tool command and no
striping command. -/
def elemsScenarioA : List ParsedElement :=
  [{ element_type := "SBATCH", key := some "--ntasks", value := some "16",
     line_number := 1, raw_line := "#SBATCH --ntasks 16" },
   { element_type := "TOOL_COMMAND",
     value := some "bwa mem -t 16 reference.fa reads.fastq > aligned.sam",
     line_number := 2, raw_line := "bwa mem -t 16 reference.fa reads.fastq > aligned.sam" }]

/-- Elements for the scenario B witness: two wide-striping commands around a
small-file tool command, in increasing line order. -/
def elemsScenarioB : List ParsedElement :=
  [{ element_type := "LUSTRE_COMMAND", value := some "lfs setstripe -c 8 /tmp/out",
     line_number := 2, raw_line := "lfs setstripe -c 8 /tmp/out" },
   { element_type := "TOOL_COMMAND", value := some "fastqc sample.fq",
     line_number := 3, raw_line := "fastqc sample.fq" },
   { element_type := "LUSTRE_COMMAND", value := some "lfs setstripe -c 9 /tmp/out2",
     line_number := 5, raw_line := "lfs setstripe -c 9 /tmp/out2" }]

/-- A well-formed two-line script for the C1 witness. -/
def wfWitnessScript : List WfLine :=
  [.dline "--ntasks".data (some "4".data), .cline "bwa mem ref.fa reads.fq".data]

/-! # Theorems

## Generic helper lemmas -/

theorem leadsWith_append (n r : List Char) : leadsWith n (n ++ r) = true := by
  induction n with
  | nil => rfl
  | cons a as ih => simp [leadsWith, ih]

/-- A nonempty pattern framed by arbitrary context is a substring. -/
theorem hasSub_middle (a b c : List Char) : hasSub b (a ++ b ++ c) = true := by
  induction a with
  | nil =>
    cases b with
    | nil =>
      cases c with
      | nil => rfl
      | cons x xs => simp [hasSub, leadsWith]
    | cons x xs =>
      show hasSub (x :: xs) ((x :: xs) ++ c) = true
      simp only [hasSub, Bool.or_eq_true]
      exact Or.inl (leadsWith_append (x :: xs) c)
  | cons y ys ih =>
    show hasSub b (y :: (ys ++ b ++ c)) = true
    simp only [hasSub, List.append_assoc, Bool.or_eq_true] at ih ⊢
    exact Or.inr ih

/-! ## Lemmas for the validator equivalence (claim C2) -/

theorem firstMissingField_eq (r : Dict) (fs : List String) :
    firstMissingField r fs = fs.find? (fun f => !dictHas r f) := by
  induction fs with
  | nil => rfl
  | cons f fs ih =>
    by_cases h : dictHas r f
    · simpa [firstMissingField, List.find?, h] using ih
    · simp [firstMissingField, List.find?, h]

theorem checkProfiles_eq (fb : Val) (ps : List String) :
    checkProfiles fb ps = (ps.findSome? (tierProblem fb)).getD .ok := by
  induction ps with
  | nil => rfl
  | cons p ps ih =>
    cases hm : pyMember p fb with
    | none => simp [checkProfiles, List.findSome?, tierProblem, hm]
    | some b =>
      cases b with
      | false => simp [checkProfiles, List.findSome?, tierProblem, hm]
      | true =>
        cases hi : pyIndex fb p with
        | none => simp [checkProfiles, List.findSome?, tierProblem, hm, hi]
        | some v =>
          cases v with
          | vdict d =>
            by_cases hk : (dictHas d "title" && dictHas d "message") = true
            · simpa [checkProfiles, List.findSome?, tierProblem, hm, hi, hk] using ih
            · simp [checkProfiles, List.findSome?, tierProblem, hm, hi, hk]
          | vstr s => simp [checkProfiles, List.findSome?, tierProblem, hm, hi]
          | vrat q => simp [checkProfiles, List.findSome?, tierProblem, hm, hi]
          | vbool bb => simp [checkProfiles, List.findSome?, tierProblem, hm, hi]
          | vnull => simp [checkProfiles, List.findSome?, tierProblem, hm, hi]
          | vlist l => simp [checkProfiles, List.findSome?, tierProblem, hm, hi]

/-! ## Claim C2 -/

/-- Claim C2, counterexample: a candidate that carries every field the code
requires but no `confidence` field, and whose feedback titles and
messages are all empty strings, is nevertheless accepted by
`validate_rule` — the claim says a candidate without `confidence`, or
with a tier lacking a non-empty title and message, is rejected. -/
theorem c2_validate_counterexample :
    validateRule ruleNoConfidence = some true ∧
    dictHas ruleNoConfidence "confidence" = false ∧
    tierStr? ruleNoConfidence "Basic" "title" = some "" := by
  refine ⟨rfl, rfl, rfl⟩

/-- Claim C2 (amended): `validate_rule` checks, in order and stopping at
the first failure, that the five fields rule_id, description, agent,
severity, feedback are present (`confidence` is not checked); that the
severity is one of INFO, WARNING, ERROR; and that each of Basic, Medium,
Advanced is present in the feedback with `title` and `message` keys
(non-emptiness is not checked). `claimValidate` spells out that ordered
procedure; the code validator agrees with it on every candidate. -/
theorem c2_validate_checks_in_order (r : Dict) : validateRun r = claimValidate r := by
  unfold validateRun claimValidate
  rw [firstMissingField_eq]
  cases h : List.find? (fun f => !dictHas r f) requiredFields with
  | some f => simp [h]
  | none =>
    simp only [h]
    split
    · rfl
    · cases hf : dictGet? r "feedback" with
      | none => rfl
      | some fb => simpa using checkProfiles_eq fb feedbackProfiles

/-! ## Claim C10 -/

/-- Claim C10: every candidate synthesized by `create_rule_from_pattern`
passes `validate_rule`: it carries all required fields, severity fixed to
WARNING, confidence 0.8, and all three feedback tiers with title and
message present — the validation gate never rejects a self-synthesized
candidate, whatever the pattern, context, and timestamp. -/
theorem c10_created_rules_always_validate (p c t : String) :
    validateRun (createRuleDict p c t) = .ok ∧
    fieldStr? (createRuleDict p c t) "severity" = some "WARNING" ∧
    dictGet? (createRuleDict p c t) "confidence" = some (.vrat (4 / 5)) ∧
    (feedbackProfiles.Forall (fun prof =>
      (tierStr? (createRuleDict p c t) prof "title").isSome = true ∧
      (tierStr? (createRuleDict p c t) prof "message").isSome = true)) := by
  refine ⟨rfl, rfl, rfl, ⟨rfl, rfl⟩, ⟨rfl, rfl⟩, ⟨rfl, rfl⟩⟩

/-! ## Claim C7 -/

/-- Claim C7: pattern extraction is deterministic. The extracted pattern
set depends only on the insight message (in particular not on the script
content, which `_extract_patterns_from_insight` ignores), and the
`rule_id` of a synthesized candidate is the content-hash-derived
`LEARNED-<hash>` identifier, a function of the pattern alone — the same
pattern always maps to the same rule_id, whatever the context and the
timestamp. -/
theorem c7_extraction_deterministic :
    (∀ (i : Insight) (s₁ s₂ : String), extractPatterns i s₁ = extractPatterns i s₂) ∧
    (∀ (i₁ i₂ : Insight) (s : String), i₁.message = i₂.message →
      extractPatterns i₁ s = extractPatterns i₂ s) ∧
    (∀ (p c₁ c₂ t₁ t₂ : String),
      fieldStr? (createRuleDict p c₁ t₁) "rule_id"
        = fieldStr? (createRuleDict p c₂ t₂) "rule_id" ∧
      fieldStr? (createRuleDict p c₁ t₁) "rule_id" = some (ruleIdOfPattern p)) := by
  refine ⟨fun i s₁ s₂ => rfl, fun i₁ i₂ s h => ?_, fun p c₁ c₂ t₁ t₂ => ⟨rfl, rfl⟩⟩
  unfold extractPatterns
  rw [h]

/-- Witness for C7 at the fixed insight of the spec example: the message
mentioning an inline-code span determines the pattern set regardless of
the other insight fields and of the script content. -/
theorem c7_extraction_deterministic_witness :
    extractPatterns { message := some "Use `lfs setstripe -c 1` here" } "script one"
      = extractPatterns
          { message := some "Use `lfs setstripe -c 1` here", title := some "other",
            confidence := some (9 / 10) } "script two" :=
  (c7_extraction_deterministic.1 _ "script one" "script two").trans
    (c7_extraction_deterministic.2.1 _ _ "script two" rfl)

/-! ## Claim C8 -/

/-- Claim C8, counterexample: feeding the single advisory finding of
scenario C through the extraction pipeline plus validator yields four
accepted candidates (for the patterns set -e, Consider using, set -e
with a trailing backtick, and for safety), not exactly one. -/
theorem c8_scenario_counterexample :
    (analyzeAndCreateRules scriptC8 [insightC8] "2025-01-01T00:00:00").length = 4 ∧
    (analyzeAndCreateRules scriptC8 [insightC8] "2025-01-01T00:00:00").length ≠ 1 := by
  refine ⟨rfl, by decide⟩

/-- Claim C8 (amended): the scenario C finding yields exactly four accepted
candidates, one per extracted pattern, and each candidate carries, in all
three tiers, a feedback message that contains its own pattern text. -/
theorem c8_scenario_four_candidates (now : String) :
    (analyzeAndCreateRules scriptC8 [insightC8] now).length = 4 ∧
    (analyzeAndCreateRules scriptC8 [insightC8] now).Forall (fun r =>
      ∃ p, p ∈ extractPatterns insightC8 scriptC8 ∧
        feedbackProfiles.Forall (fun prof =>
          ∃ m, tierStr? r prof "message" = some m ∧ hasSub p.data m.data = true)) := by
  refine ⟨rfl, ?_, ?_, ?_, ?_⟩
  · exact ⟨"set -e", by decide, ⟨_, rfl, by decide⟩, ⟨_, rfl, by decide⟩, ⟨_, rfl, by decide⟩⟩
  · exact ⟨"Consider using", by decide,
      ⟨_, rfl, by decide⟩, ⟨_, rfl, by decide⟩, ⟨_, rfl, by decide⟩⟩
  · exact ⟨"set -e`", by decide, ⟨_, rfl, by decide⟩, ⟨_, rfl, by decide⟩, ⟨_, rfl, by decide⟩⟩
  · exact ⟨"for safety", by decide,
      ⟨_, rfl, by decide⟩, ⟨_, rfl, by decide⟩, ⟨_, rfl, by decide⟩⟩

/-! ## Claim C3 -/

/-- Claim C3, counterexample: a failure during the final write (the code
opens the store file with mode `w`, truncating it in place, then dumps)
leaves the persisted store changed — truncated or half written — so the
update is not an atomic replace and a mid-write failure does not leave
the previous store untouched. -/
theorem c3_update_counterexample :
    (updateKnowledgeBase fsExisting [ruleBatch1] true "n1" "ts1" .atWrite).1 = false ∧
    (updateKnowledgeBase fsExisting [ruleBatch1] true "n1" "ts1" .atWrite).2.store
      ≠ fsExisting.store := by
  refine ⟨rfl, ?_⟩
  have h : (updateKnowledgeBase fsExisting [ruleBatch1] true "n1" "ts1" .atWrite).2.store
      = some .corrupt := rfl
  rw [h, show fsExisting.store = some (FileContent.yaml (freshKB "t0")) from rfl]
  intro hEq
  exact FileContent.noConfusion (Option.some.inj hEq)

/-- Case analysis of the tail of `update_knowledge_base` (everything after
the backup step): it never touches the backups; a failure there other
than a write fault leaves the store unchanged; a write fault leaves the
store either unchanged (when an earlier step already failed) or
truncated in place. -/
theorem updateFromLoad_cases (fs1 : FSState) (rules : List Dict) (now : String)
    (fault : Fault) :
    ((updateKnowledgeBase.updateFromLoad fs1 rules now fault).2.backups = fs1.backups) ∧
    ((updateKnowledgeBase.updateFromLoad fs1 rules now fault).1 = false →
      fault ≠ .atWrite →
      (updateKnowledgeBase.updateFromLoad fs1 rules now fault).2.store = fs1.store) ∧
    (fault = .atWrite →
      (updateKnowledgeBase.updateFromLoad fs1 rules now fault).2.store = fs1.store ∨
      (updateKnowledgeBase.updateFromLoad fs1 rules now fault).2.store = some .corrupt) := by
  by_cases hL : fault = .atLoad
  · simp [updateKnowledgeBase.updateFromLoad, hL]
  · cases h1 : loadStore now fs1.store with
    | none => simp [updateKnowledgeBase.updateFromLoad, hL, h1]
    | some kb0 =>
      by_cases hM : fault = .atMerge
      · simp [updateKnowledgeBase.updateFromLoad, hL, h1, hM]
      · cases h2 : routeAll kb0 rules with
        | none => simp [updateKnowledgeBase.updateFromLoad, hL, h1, hM, h2]
        | some kb1 =>
          by_cases hW : fault = .atWrite
          · simp [updateKnowledgeBase.updateFromLoad, hL, h1, hM, h2, hW]
          · simp [updateKnowledgeBase.updateFromLoad, hL, h1, hM, h2, hW]

/-- Claim C3 (amended): when `update_knowledge_base` fails at the backup,
load, or merge step — any failing step other than the final write — the
previously persisted store is left unchanged; the final write itself is
an in-place truncation, not an atomic replace, so a failure there can
corrupt the store, but when a store existed and backup was requested the
pre-update content has already been copied to the timestamped backup,
from which it is recoverable. -/
theorem c3_update_failure_semantics (fs : FSState) (rules : List Dict) (b : Bool)
    (now ts : String) (fault : Fault) :
    (fault ≠ .atWrite → (updateKnowledgeBase fs rules b now ts fault).1 = false →
      (updateKnowledgeBase fs rules b now ts fault).2.store = fs.store) ∧
    (∀ c, fault = .atWrite → b = true → fs.store = some c →
      (ts, c) ∈ (updateKnowledgeBase fs rules b now ts fault).2.backups) ∧
    (fault = .atWrite →
      (updateKnowledgeBase fs rules b now ts fault).2.store = fs.store ∨
      (updateKnowledgeBase fs rules b now ts fault).2.store = some .corrupt) := by
  cases hs : fs.store with
  | none =>
    simp only [updateKnowledgeBase, hs]
    have h := updateFromLoad_cases fs rules now fault
    refine ⟨fun hne hf => (h.2.1 hf hne).trans hs, ?_, ?_⟩
    · intro c _ _ hsc
      exact Option.noConfusion hsc
    · intro hw
      rcases h.2.2 hw with h' | h'
      · exact Or.inl (h'.trans hs)
      · exact Or.inr h'
  | some c0 =>
    cases b with
    | false =>
      simp only [updateKnowledgeBase, hs]
      have h := updateFromLoad_cases fs rules now fault
      refine ⟨fun hne hf => (h.2.1 hf hne).trans hs, ?_, ?_⟩
      · intro c _ hb
        exact Bool.noConfusion hb
      · intro hw
        rcases h.2.2 hw with h' | h'
        · exact Or.inl (h'.trans hs)
        · exact Or.inr h'
    | true =>
      simp only [updateKnowledgeBase, hs]
      by_cases hb : fault = .atBackup
      · simp only [hb, if_pos rfl]
        refine ⟨fun _ _ => hs, ?_, ?_⟩
        · intro c hw
          exact absurd hw (by decide)
        · intro hw
          exact absurd hw (by decide)
      · simp only [if_neg hb]
        have h := updateFromLoad_cases
          { store := some c0, backups := upsertBackup ts c0 fs.backups } rules now fault
        refine ⟨fun hne hf => h.2.1 hf hne, ?_, ?_⟩
        · intro c _ _ hsc
          cases Option.some.inj hsc
          rw [h.1]
          exact List.mem_cons_self _ _
        · intro hw
          rcases h.2.2 hw with h' | h'
          · exact Or.inl h'
          · exact Or.inr h'

/-- Witness for C3: a load failure leaves the existing store unchanged, and
under a write fault the pre-update content sits in the timestamped
backup. -/
theorem c3_update_failure_semantics_witness :
    (updateKnowledgeBase fsExisting [ruleBatch1] true "n" "ts" .atLoad).2.store
      = fsExisting.store ∧
    ("ts", FileContent.yaml (freshKB "t0"))
      ∈ (updateKnowledgeBase fsExisting [ruleBatch1] true "n2" "ts" .atWrite).2.backups :=
  ⟨(c3_update_failure_semantics fsExisting [ruleBatch1] true "n" "ts" .atLoad).1
      (by decide) rfl,
   (c3_update_failure_semantics fsExisting [ruleBatch1] true "n2" "ts" .atWrite).2.1
      (FileContent.yaml (freshKB "t0")) rfl rfl rfl⟩

/-! ## Claim C4 -/

/-- Claim C4 (code bug): two successive successful updates with disjoint
one-rule batches from an existing store. The rule count adds up and the
two timestamped backups are distinct, but the version is the constant
`"1.0.1"` after both updates — the line commented `# Increment version`
assigns a literal — so the version after the second update is not
strictly greater than after the first (and an existing store version is
overwritten rather than incremented). -/
theorem c4_version_not_incremented :
    c4step1.1 = true ∧ c4step2.1 = true ∧
    storeVersion? fsExisting = some "1.0.0" ∧
    storeVersion? c4step1.2 = some "1.0.1" ∧
    storeVersion? c4step2.2 = some "1.0.1" ∧
    storeVersion? c4step2.2 = storeVersion? c4step1.2 ∧
    storeTotal? c4step2.2 = some (totalRules (freshKB "t0") + 1 + 1) ∧
    c4step2.2.backups.map Prod.fst = ["ts2", "ts1"] ∧
    ("ts2" : String) ≠ "ts1" := by
  refine ⟨rfl, rfl, rfl, rfl, rfl, rfl, rfl, rfl, by decide⟩

/-! ## Claim C9 -/

/-- In a list sorted by strictly increasing line numbers, the first match of
a predicate has the lowest line number among all matches. -/
theorem find?_min_of_sorted {p : ParsedElement → Bool} {es : List ParsedElement}
    {e0 : ParsedElement}
    (hs : es.Pairwise (fun a b => a.line_number < b.line_number))
    (hf : es.find? p = some e0) :
    ∀ e ∈ es, p e = true → e0.line_number ≤ e.line_number := by
  induction es with
  | nil => simp at hf
  | cons a t ih =>
    by_cases hp : p a = true
    · rw [List.find?_cons_of_pos _ hp] at hf
      cases Option.some.inj hf
      intro e he hpe
      rcases List.mem_cons.mp he with rfl | het
      · exact le_refl _
      · exact le_of_lt ((List.pairwise_cons.mp hs).1 e het)
    · rw [List.find?_cons_of_neg _ hp] at hf
      intro e he hpe
      rcases List.mem_cons.mp he with rfl | het
      · exact absurd hpe hp
      · exact ih (List.pairwise_cons.mp hs).2 hf e het hpe

/-- Claim C9: the rule-evaluation anchoring contract of `LustreAgent.run`.
A sequence with a large-file tool command and no striping command yields
the LUSTRE-001 finding with no anchor line; a sequence in increasing
line order with a small-file tool command and at least one wide-striping
`lfs setstripe` command yields the LUSTRE-002 finding anchored at the
wide-striping element with the lowest line number. -/
theorem c9_rule_anchoring (es : List ParsedElement) (p : UserProfile) :
    (hasLargeFileTools es = true → es.any isSetstripeElem = false →
      ∃ f ∈ lustreRun es p, f.rule_id = "LUSTRE-001" ∧ f.line_number = none) ∧
    (es.Pairwise (fun a b => a.line_number < b.line_number) →
     hasSmallFileTools es = true → es.any isWideElem = true →
      ∃ f ∈ lustreRun es p, f.rule_id = "LUSTRE-002" ∧
        ∃ e ∈ es, isWideElem e = true ∧ f.line_number = some e.line_number ∧
          ∀ e2 ∈ es, isWideElem e2 = true → e.line_number ≤ e2.line_number) := by
  constructor
  · intro hL hS
    have hcond : (hasLargeFileTools es && !(es.any isSetstripeElem)) = true := by
      rw [hL, hS]; rfl
    refine ⟨{ agent_id := "Lustre Agent", rule_id := "LUSTRE-001", severity := "Warning",
              title := (lustre001Feedback p).1, message := (lustre001Feedback p).2,
              line_number := none, category := some "LUSTRE" }, ?_, rfl, rfl⟩
    unfold lustreRun
    rw [if_pos hcond]
    exact List.mem_append_left _ (List.mem_singleton.mpr rfl)
  · intro hsort hSmall hWide
    have hcond : (hasSmallFileTools es && es.any isWideElem) = true := by
      rw [hSmall, hWide]; rfl
    obtain ⟨e0, hf⟩ : ∃ e0, es.find? isWideElem = some e0 := by
      cases hfind : es.find? isWideElem with
      | some e0 => exact ⟨e0, rfl⟩
      | none =>
        rcases List.any_eq_true.mp hWide with ⟨x, hx, hpx⟩
        exact absurd hpx (by simpa using List.find?_eq_none.mp hfind x hx)
    refine ⟨{ agent_id := "Lustre Agent", rule_id := "LUSTRE-002", severity := "Warning",
              title := (lustre002Feedback p).1, message := (lustre002Feedback p).2,
              line_number := (es.find? isWideElem).map (fun e => e.line_number),
              category := some "LUSTRE" }, ?_, rfl, e0,
      List.mem_of_find?_eq_some hf, List.find?_some hf, ?_,
      find?_min_of_sorted hsort hf⟩
    · unfold lustreRun
      rw [if_pos hcond]
      exact List.mem_append_right _ (List.mem_singleton.mpr rfl)
    · show (es.find? isWideElem).map (fun e => e.line_number) = some e0.line_number
      rw [hf]
      rfl

/-- Witness for C9 at the two end-to-end scenarios: the `bwa mem` script
elements trigger LUSTRE-001 with no anchor; the wide-striping elements
around a `fastqc` command trigger LUSTRE-002 anchored at line 2, the
first of the two wide-striping lines. -/
theorem c9_rule_anchoring_witness :
    (∃ f ∈ lustreRun elemsScenarioA .Medium,
      f.rule_id = "LUSTRE-001" ∧ f.line_number = none) ∧
    (∃ f ∈ lustreRun elemsScenarioB .Medium, f.rule_id = "LUSTRE-002" ∧
      ∃ e ∈ elemsScenarioB, isWideElem e = true ∧ f.line_number = some e.line_number ∧
        ∀ e2 ∈ elemsScenarioB, isWideElem e2 = true →
          e.line_number ≤ e2.line_number) :=
  ⟨(c9_rule_anchoring elemsScenarioA .Medium).1 (by decide) (by decide),
   (c9_rule_anchoring elemsScenarioB .Medium).2 (by decide) (by decide) (by decide)⟩

/-! ## Progress of the PEG line loop (for claims C6, C5, C1) -/

theorem leadsWith_length {n h : List Char} (hl : leadsWith n h = true) :
    n.length ≤ h.length := by
  induction n generalizing h with
  | nil => simp
  | cons a as ih =>
    cases h with
    | nil => exact Bool.noConfusion hl
    | cons b bs =>
      simp only [leadsWith, Bool.and_eq_true] at hl
      simpa using ih hl.2

theorem dropLit_some {lit cs r : List Char} (h : dropLit lit cs = some r) :
    r = cs.drop lit.length ∧ leadsWith lit cs = true := by
  unfold dropLit at h
  split at h
  · exact ⟨(Option.some.inj h).symm, by assumption⟩
  · exact Option.noConfusion h

theorem lenDropWhileLe (p : Char → Bool) (l : List Char) :
    (l.dropWhile p).length ≤ l.length := by
  induction l with
  | nil => simp
  | cons a t ih =>
    by_cases h : p a = true
    · rw [List.dropWhile_cons_of_pos h]
      exact ih.trans (Nat.le_succ _)
    · rw [List.dropWhile_cons_of_neg h]

theorem takeWhile_ne_nil_length {p : Char → Bool} {l : List Char}
    (h : l.takeWhile p ≠ []) : (l.dropWhile p).length < l.length := by
  cases l with
  | nil => exact absurd rfl h
  | cons a t =>
    by_cases hp : p a = true
    · rw [List.dropWhile_cons_of_pos hp]
      exact Nat.lt_succ_of_le (lenDropWhileLe _ _)
    · rw [List.takeWhile_cons_of_neg hp] at h
      exact absurd rfl h

theorem pegOptionKey_some {cs k rest : List Char}
    (h : pegOptionKey cs = some (k, rest)) :
    rest = cs.dropWhile keyChar ∧ k = cs.takeWhile keyChar := by
  unfold pegOptionKey at h
  split at h
  · have := Option.some.inj h
    exact ⟨(congrArg Prod.snd this).symm, (congrArg Prod.fst this).symm⟩
  · exact Option.noConfusion h

theorem pegEqSkip_le (l : List Char) : (pegEqSkip l).length ≤ l.length := by
  unfold pegEqSkip
  split
  · next r =>
    have := lenDropWhileLe isWsTab r
    simp only [List.length_cons]
    omega
  · exact le_refl _

theorem pegAfterVal_le (cs3 : List Char) : (pegAfterVal cs3).length ≤ cs3.length := by
  unfold pegAfterVal
  exact (lenDropWhileLe _ _).trans ((pegEqSkip_le _).trans (lenDropWhileLe _ _))

theorem pegSbatch_rest_lt {cs : List Char} {kv} {rest : List Char}
    (h : pegSbatch cs = some (kv, rest)) : rest.length < cs.length := by
  unfold pegSbatch at h
  split at h
  · exact Option.noConfusion h
  · next cs1 hd =>
    split at h
    · exact Option.noConfusion h
    · next k cs3 hk =>
      have hrest : rest = ((if pegValOf cs3 = [] then cs3 else pegAfterVal cs3).dropWhile
          isWsTab).dropWhile (fun c => !(c == '\n')) :=
        (congrArg Prod.snd (Option.some.inj h)).symm
      obtain ⟨hd1, hd2⟩ := dropLit_some hd
      have h7 : 7 ≤ (cs.dropWhile isWsTab).length := leadsWith_length hd2
      have hdwcs := lenDropWhileLe isWsTab cs
      have hlit : ("#SBATCH".data).length = 7 := rfl
      have hcs1 : cs1.length + 7 ≤ cs.length := by
        rw [hd1, List.length_drop, hlit]
        omega
      have hcs3 : cs3.length ≤ cs1.length := by
        rw [(pegOptionKey_some hk).1]
        exact (lenDropWhileLe _ _).trans (lenDropWhileLe _ _)
      have hif : (if pegValOf cs3 = [] then cs3 else pegAfterVal cs3).length
          ≤ cs3.length := by
        split
        · exact le_refl _
        · exact pegAfterVal_le cs3
      have hbound : rest.length ≤ cs3.length := by
        rw [hrest]
        exact (lenDropWhileLe _ _).trans ((lenDropWhileLe _ _).trans hif)
      omega

theorem pegAgentComment_rest_lt {cs : List Char} {m rest : List Char}
    (h : pegAgentComment cs = some (m, rest)) : rest.length < cs.length := by
  unfold pegAgentComment at h
  split at h
  · exact Option.noConfusion h
  · next c cs1 hdw =>
    split at h
    · split at h
      · exact Option.noConfusion h
      · next cs2 hd =>
        split at h
        · exact Option.noConfusion h
        · have hrest : rest = (cs2.dropWhile isWsTab).dropWhile (fun x => !(x == '\n')) :=
            (congrArg Prod.snd (Option.some.inj h)).symm
          have h1 : rest.length ≤ cs2.length := by
            rw [hrest]
            exact (lenDropWhileLe _ _).trans (lenDropWhileLe _ _)
          obtain ⟨hd1, hd2⟩ := dropLit_some hd
          have h2 : cs2.length ≤ cs1.length := by
            rw [hd1, List.length_drop]
            exact le_trans (Nat.sub_le _ _) (lenDropWhileLe _ _)
          have h3 : (c :: cs1).length ≤ cs.length := by
            rw [← hdw]
            exact lenDropWhileLe _ _
          simp only [List.length_cons] at h3
          omega
    · exact Option.noConfusion h

theorem pegComment_rest_lt {cs rest : List Char}
    (h : pegComment cs = some rest) : rest.length < cs.length := by
  unfold pegComment at h
  split at h
  · exact Option.noConfusion h
  · next c cs1 hdw =>
    split at h
    · have h1 : rest.length ≤ cs1.length := by
        rw [← Option.some.inj h]
        exact lenDropWhileLe _ _
      have h3 : (c :: cs1).length ≤ cs.length := by
        rw [← hdw]
        exact lenDropWhileLe _ _
      simp only [List.length_cons] at h3
      omega
    · exact Option.noConfusion h

theorem pegCommand_rest_lt {cs rest : List Char}
    (h : pegCommand cs = some rest) : rest.length < cs.length := by
  unfold pegCommand at h
  split at h
  · exact Option.noConfusion h
  · next hbody =>
    have hlt : ((cs.dropWhile isWsTab).dropWhile
        (fun c => !(c == '#') && !(c == '\n'))).length < (cs.dropWhile isWsTab).length :=
      takeWhile_ne_nil_length hbody
    have hle := lenDropWhileLe isWsTab cs
    split at h
    · next r2 hpc =>
      cases Option.some.inj h
      have := pegComment_rest_lt hpc
      omega
    · cases Option.some.inj h
      omega

/-- Every nonempty input makes strict progress through one `line` node: the
PEG `line` rule matches zero-width only at the end of the input, which is
exactly why `Grammar.parse` never raises for any script text. -/
theorem lineStep_progress (idx : Nat) {cs : List Char} (hcs : cs ≠ []) :
    (lineStep idx cs).2.2.length < cs.length := by
  unfold lineStep
  cases hs : pegSbatch cs with
  | some kvr =>
    obtain ⟨kv, rest⟩ := kvr
    have := pegSbatch_rest_lt hs
    have := lenDropWhileLe nlChar rest
    simp only []
    omega
  | none =>
    cases ha : pegAgentComment cs with
    | some mr =>
      obtain ⟨m, rest⟩ := mr
      have := pegAgentComment_rest_lt ha
      have := lenDropWhileLe nlChar rest
      simp only []
      omega
    | none =>
      cases hc : pegComment cs with
      | some rest =>
        have := pegComment_rest_lt hc
        have := lenDropWhileLe nlChar rest
        simp only []
        omega
      | none =>
        cases hcmd : pegCommand cs with
        | some rest =>
          have := pegCommand_rest_lt hcmd
          have h2 := lenDropWhileLe nlChar rest
          simp only []
          omega
        | none =>
          simp only []
          cases cs with
          | nil => exact absurd rfl hcs
          | cons a cs1 =>
            by_cases hw : isWsTab a = true
            · rw [List.dropWhile_cons_of_pos hw]
              have h1 := lenDropWhileLe isWsTab cs1
              have h2 := lenDropWhileLe nlChar (cs1.dropWhile isWsTab)
              simp only [List.length_cons]
              omega
            · rw [List.dropWhile_cons_of_neg hw]
              by_cases hn : nlChar a = true
              · rw [List.dropWhile_cons_of_pos hn]
                have := lenDropWhileLe nlChar cs1
                simp only [List.length_cons]
                omega
              · exfalso
                by_cases hh : a = '#'
                · subst hh
                  have h9 := hc
                  rw [show pegComment ('#' :: cs1)
                      = some (cs1.dropWhile (fun x => !(x == '\n'))) from rfl] at h9
                  exact Option.noConfusion h9
                · have hna : (fun c => !(c == '#') && !(c == '\n')) a = true := by
                    have hnn : ¬ a = '\n' := by
                      intro hEq
                      rw [hEq] at hn
                      exact hn rfl
                    simp [hh, hnn]
                  have hbody : ((a :: cs1).dropWhile isWsTab).takeWhile
                      (fun c => !(c == '#') && !(c == '\n')) ≠ [] := by
                    rw [List.dropWhile_cons_of_neg hw]
                    simp [List.takeWhile_cons, hna]
                  unfold pegCommand at hcmd
                  rw [if_neg hbody] at hcmd
                  split at hcmd
                  · exact Option.noConfusion hcmd
                  · exact Option.noConfusion hcmd

/-- With fuel above the input length, the `line*` loop always consumes the
whole input: the grammar parse succeeds on every script. -/
theorem pegLoop_isSome : ∀ (fuel idx : Nat) (cs : List Char), cs.length < fuel →
    (pegLoop fuel idx cs).isSome = true := by
  intro fuel
  induction fuel with
  | zero => intro idx cs h; omega
  | succ fuel ih =>
    intro idx cs h
    unfold pegLoop
    by_cases hcs : cs = []
    · rw [if_pos hcs]
      rfl
    · rw [if_neg hcs]
      have hp := lineStep_progress idx hcs
      rw [if_pos hp]
      have hrec := ih (idx + 1) (lineStep idx cs).2.2 (by omega)
      cases hr : pegLoop fuel (idx + 1) (lineStep idx cs).2.2 with
      | none => rw [hr] at hrec; exact Bool.noConfusion hrec
      | some r => rfl

/-! ## Claim C6 -/

/-- Claim C6: `ParserAgent.run` returns normally on every input string:
the grammar parse always succeeds (the permissive `line` rule makes
progress at every position, so parsimonious never raises a `ParseError`
on string input), hence the disjunction of the claim holds with its
first disjunct, and the fallback — itself a total function — is not
invoked. -/
theorem c6_parser_run_total (raw : String) :
    ∃ r, pegScript (ensureNL raw) = some r ∧ parserRun raw = (r, false) := by
  have h : (pegScript (ensureNL raw)).isSome = true := by
    unfold pegScript
    exact pegLoop_isSome _ 0 _ (Nat.lt_succ_self _)
  obtain ⟨r, hr⟩ := Option.isSome_iff_exists.mp h
  refine ⟨r, hr, ?_⟩
  unfold parserRun
  rw [hr]

/-! ## Line-number invariants (claim C5) -/

theorem lineStep_elem_line {idx : Nat} {cs : List Char} {pe : ParsedElement}
    (h : (lineStep idx cs).1 = some pe) : pe.line_number = idx := by
  unfold lineStep at h
  split at h
  · exact (congrArg ParsedElement.line_number (Option.some.inj h)).symm
  · split at h
    · exact Option.noConfusion h
    · split at h
      · exact Option.noConfusion h
      · split at h
        · split at h
          · exact Option.noConfusion h
          · exact (congrArg ParsedElement.line_number (Option.some.inj h)).symm
        · exact Option.noConfusion h

theorem pegLoop_mono : ∀ (fuel idx : Nat) (cs : List Char) (es : List ParsedElement)
    (us : List UserCommand), pegLoop fuel idx cs = some (es, us) →
    (∀ e ∈ es, idx ≤ e.line_number) ∧
    es.Pairwise (fun a b => a.line_number < b.line_number) := by
  intro fuel
  induction fuel with
  | zero => intro idx cs es us h; exact Option.noConfusion h
  | succ fuel ih =>
    intro idx cs es us h
    unfold pegLoop at h
    by_cases hcs : cs = []
    · rw [if_pos hcs] at h
      cases Option.some.inj h
      exact ⟨by simp, by simp⟩
    · rw [if_neg hcs] at h
      by_cases hp : (lineStep idx cs).2.2.length < cs.length
      · rw [if_pos hp] at h
        cases hr : pegLoop fuel (idx + 1) (lineStep idx cs).2.2 with
        | none => rw [hr] at h; exact Option.noConfusion h
        | some r =>
          rw [hr] at h
          obtain ⟨es2, us2⟩ := r
          have hes : es = (lineStep idx cs).1.toList ++ es2 :=
            (congrArg Prod.fst (Option.some.inj h)).symm
          obtain ⟨ih1, ih2⟩ := ih (idx + 1) _ es2 us2 hr
          subst hes
          constructor
          · intro e he
            rcases List.mem_append.mp he with hL | hR
            · simp only [Option.mem_toList, Option.mem_def] at hL
              exact le_of_eq (lineStep_elem_line hL).symm
            · exact (Nat.le_succ idx).trans (ih1 e hR)
          · cases ho : (lineStep idx cs).1 with
            | none => simpa using ih2
            | some pe =>
              show List.Pairwise _ (pe :: es2)
              refine List.pairwise_cons.mpr ⟨?_, ih2⟩
              intro b hb
              have h1 := ih1 b hb
              have h2 := lineStep_elem_line ho
              omega
      · rw [if_neg hp] at h
        exact Option.noConfusion h

theorem fbLine_elem {idx : Nat} {l : List Char} {pe : ParsedElement}
    (h : (fbLine idx l).1 = some pe) : pe.line_number = idx ∧ pe.raw_line = ⟨l⟩ := by
  unfold fbLine at h
  split at h
  · have := Option.some.inj h
    exact ⟨(congrArg ParsedElement.line_number this).symm,
           (congrArg ParsedElement.raw_line this).symm⟩
  · split at h
    · exact Option.noConfusion h
    · split at h
      · split at h
        · exact Option.noConfusion h
        · have := Option.some.inj h
          exact ⟨(congrArg ParsedElement.line_number this).symm,
                 (congrArg ParsedElement.raw_line this).symm⟩
      · exact Option.noConfusion h

theorem fallbackLines_facts : ∀ (lines : List (List Char)) (idx : Nat),
    (∀ e ∈ (fallbackLines lines idx).1, idx ≤ e.line_number ∧
      lines.get? (e.line_number - idx) = some e.raw_line.data) ∧
    (fallbackLines lines idx).1.Pairwise (fun a b => a.line_number < b.line_number) := by
  intro lines
  induction lines with
  | nil => intro idx; exact ⟨by simp [fallbackLines], by simp [fallbackLines]⟩
  | cons l ls ih =>
    intro idx
    obtain ⟨ih1, ih2⟩ := ih (idx + 1)
    have hexp : (fallbackLines (l :: ls) idx).1
        = (fbLine idx l).1.toList ++ (fallbackLines ls (idx + 1)).1 := rfl
    constructor
    · intro e he
      rw [hexp] at he
      rcases List.mem_append.mp he with hL | hR
      · simp only [Option.mem_toList, Option.mem_def] at hL
        obtain ⟨h1, h2⟩ := fbLine_elem hL
        refine ⟨le_of_eq h1.symm, ?_⟩
        rw [h1, Nat.sub_self]
        simp [h2]
      · obtain ⟨h1, h2⟩ := ih1 e hR
        refine ⟨(Nat.le_succ idx).trans h1, ?_⟩
        have heq : e.line_number - idx = (e.line_number - (idx + 1)) + 1 := by omega
        rw [heq]
        simpa using h2
    · rw [hexp]
      cases ho : (fbLine idx l).1 with
      | none => simpa using ih2
      | some pe =>
        show List.Pairwise _ (pe :: (fallbackLines ls (idx + 1)).1)
        refine List.pairwise_cons.mpr ⟨?_, ih2⟩
        intro b hb
        have h1 := (ih1 b hb).1
        have h2 := (fbLine_elem ho).1
        omega

/-! ## Claim C5 -/

/-- Claim C5, counterexample: on the one-line script `bwa x` the grammar
path produces an element with line_number 0 — the visitor is post-order,
so elements are built before `visit_line` increments the counter — while
the claim requires a positive line number equal to the physical line 1
on both paths. -/
theorem c5_line_number_counterexample :
    (pegScript (ensureNL "bwa x")).map (fun r => r.1.map (fun e => e.line_number))
      = some [0] ∧ ¬ (1 ≤ (0 : Nat)) :=
  ⟨rfl, by decide⟩

/-- Claim C5 (amended): in both paths the elements appear in strictly
increasing line_number order and no two share a line. The fallback path
numbers are positive and equal to the physical line (the raw_line of
each element is the split line at its 1-based index); the grammar path
numbers each element with the 0-based index of its `line` node — one
less than the physical line on scripts without blank-line runs — so the
first element may carry 0. -/
theorem c5_line_number_invariants (raw : String) :
    ((fallbackParse raw).1.Pairwise (fun a b => a.line_number < b.line_number)) ∧
    (∀ e ∈ (fallbackParse raw).1, 1 ≤ e.line_number ∧
      (splitNL raw.data).get? (e.line_number - 1) = some e.raw_line.data) ∧
    (∀ es us, pegScript (ensureNL raw) = some (es, us) →
      es.Pairwise (fun a b => a.line_number < b.line_number)) := by
  refine ⟨(fallbackLines_facts (splitNL raw.data) 1).2,
    (fallbackLines_facts (splitNL raw.data) 1).1, ?_⟩
  intro es us h
  exact (pegLoop_mono _ 0 _ es us h).2

/-- Witness for C5 on a concrete two-line script: the fallback directive
element sits on physical line 1, and the grammar elements of the same
script are strictly increasing. -/
theorem c5_line_number_invariants_witness :
    (1 ≤ ({ element_type := "SBATCH", key := some "--n", value := some "1",
            line_number := 1, raw_line := "#SBATCH --n 1" } : ParsedElement).line_number ∧
      (splitNL ("#SBATCH --n 1\nbwa x" : String).data).get?
          (({ element_type := "SBATCH", key := some "--n", value := some "1",
              line_number := 1, raw_line := "#SBATCH --n 1" } : ParsedElement).line_number - 1)
        = some ({ element_type := "SBATCH", key := some "--n", value := some "1",
                  line_number := 1,
                  raw_line := "#SBATCH --n 1" } : ParsedElement).raw_line.data) ∧
    ([{ element_type := "SBATCH", key := some "--n", value := some "1",
        line_number := 0, raw_line := "#SBATCH --n 1" },
      { element_type := "TOOL_COMMAND", value := some "bwa x",
        line_number := 1, raw_line := "bwa x" }] : List ParsedElement).Pairwise
      (fun a b => a.line_number < b.line_number) :=
  ⟨(c5_line_number_invariants "#SBATCH --n 1\nbwa x").2.1 _ (by decide),
   (c5_line_number_invariants "#SBATCH --n 1\nbwa x").2.2 _ _ rfl⟩

/-! ## Claim C1: character-class facts -/

theorem isWsTab_pyWsp {c : Char} (h : isWsTab c = true) : isPyWsp c = true := by
  simp only [isWsTab, Bool.or_eq_true, decide_eq_true_eq] at h
  rcases h with rfl | rfl <;> decide

theorem not_pyWsp_not_wsTab {c : Char} (h : isPyWsp c = false) : isWsTab c = false := by
  cases hw : isWsTab c
  · rfl
  · rw [isWsTab_pyWsp hw] at h
    exact Bool.noConfusion h

theorem keyChar_not_pyWsp {c : Char} (h : keyChar c = true) : isPyWsp c = false := by
  cases hp : isPyWsp c
  · rfl
  · exfalso
    simp only [isPyWsp, Bool.or_eq_true, decide_eq_true_eq] at hp
    rcases hp with ((((rfl | rfl) | rfl) | rfl) | rfl) | rfl <;> exact absurd h (by decide)

theorem optValChar_not_pyWsp {c : Char} (h : optValChar c = true) : isPyWsp c = false := by
  simp only [optValChar, Bool.and_eq_true, Bool.not_eq_true'] at h
  exact h.1

theorem optValChar_ne_hash {c : Char} (h : optValChar c = true) : ¬ c = '#' := by
  intro heq
  subst heq
  exact absurd h (by decide)

theorem not_pyWsp_ne_nl {c : Char} (h : isPyWsp c = false) : ¬ c = '\n' := by
  intro heq
  subst heq
  exact absurd h (by decide)

theorem keyChar_ne_nl {c : Char} (h : keyChar c = true) : ¬ c = '\n' :=
  not_pyWsp_ne_nl (keyChar_not_pyWsp h)

/-! ## Claim C1: list-span helpers -/

theorem head_cons_eq {a c : Char} {l : List Char} (h : (a :: l).head? = some c) : c = a :=
  (Option.some.inj h).symm

theorem takeWhile_append_all {p : Char → Bool} {xs ys : List Char}
    (hx : ∀ c ∈ xs, p c = true) (hy : ∀ c, ys.head? = some c → p c = false) :
    (xs ++ ys).takeWhile p = xs := by
  induction xs with
  | nil =>
    simp only [List.nil_append]
    cases ys with
    | nil => rfl
    | cons b bs => rw [List.takeWhile_cons_of_neg (by simp [hy b rfl])]
  | cons a as ih =>
    simp only [List.cons_append]
    rw [List.takeWhile_cons_of_pos (hx a (by simp)), ih (fun c hc => hx c (by simp [hc]))]

theorem dropWhile_append_all {p : Char → Bool} {xs ys : List Char}
    (hx : ∀ c ∈ xs, p c = true) (hy : ∀ c, ys.head? = some c → p c = false) :
    (xs ++ ys).dropWhile p = ys := by
  induction xs with
  | nil =>
    simp only [List.nil_append]
    cases ys with
    | nil => rfl
    | cons b bs => rw [List.dropWhile_cons_of_neg (by simp [hy b rfl])]
  | cons a as ih =>
    simp only [List.cons_append]
    rw [List.dropWhile_cons_of_pos (hx a (by simp))]
    exact ih (fun c hc => hx c (by simp [hc]))

theorem dropWhile_head_false {p : Char → Bool} {l : List Char}
    (h : ∀ c, l.head? = some c → p c = false) : l.dropWhile p = l := by
  cases l with
  | nil => rfl
  | cons a t => rw [List.dropWhile_cons_of_neg (by simp [h a rfl])]

theorem pyStrip_eq_self {t : List Char}
    (h1 : ∀ c, t.head? = some c → isPyWsp c = false)
    (h2 : ∀ c, t.getLast? = some c → isPyWsp c = false) :
    pyStrip t = t := by
  unfold pyStrip
  rw [dropWhile_head_false h1,
    dropWhile_head_false (fun c hc => h2 c (by rwa [List.head?_reverse] at hc))]
  exact List.reverse_reverse t

theorem hasSub_single_false {x : Char} {t : List Char}
    (h : ∀ c ∈ t, ¬ c = x) : hasSub [x] t = false := by
  induction t with
  | nil => rfl
  | cons a r ih =>
    have ha : ¬ x = a := fun he => h a (by simp) he.symm
    simp only [hasSub, Bool.or_eq_false_iff]
    refine ⟨?_, ih (fun c hc => h c (by simp [hc]))⟩
    simp only [leadsWith, Bool.and_eq_false_iff]
    left
    simp [ha]

theorem leadsWith_head_ne {a b : Char} {as bs : List Char} (h : ¬ a = b) :
    leadsWith (a :: as) (b :: bs) = false := by
  simp [leadsWith, h]

/-! ## Claim C1: splitNL on newline-terminated lines -/

theorem splitNL_shape (cs : List Char) : ∃ h t, splitNL cs = h :: t := by
  cases cs with
  | nil => exact ⟨[], [], rfl⟩
  | cons c cs2 =>
    unfold splitNL
    cases hs : splitNL cs2 with
    | nil => exact ⟨[], [], rfl⟩
    | cons a b =>
      by_cases hc : c = '\n'
      · exact ⟨[], a :: b, if_pos hc⟩
      · exact ⟨c :: a, b, if_neg hc⟩

theorem splitNL_line {xs rest : List Char} (hxs : ∀ c ∈ xs, ¬ c = '\n') :
    splitNL (xs ++ '\n' :: rest) = xs :: splitNL rest := by
  induction xs with
  | nil =>
    obtain ⟨a, b, hab⟩ := splitNL_shape rest
    show splitNL ('\n' :: rest) = [] :: splitNL rest
    rw [hab]
    conv_lhs => rw [splitNL, hab]
    exact if_pos rfl
  | cons x xs ih =>
    show splitNL (x :: (xs ++ '\n' :: rest)) = (x :: xs) :: splitNL rest
    have ih2 := ih (fun c hc => hxs c (by simp [hc]))
    conv_lhs => rw [splitNL, ih2]
    exact if_neg (hxs x (by simp))

/-! ## Claim C1: the lazy value capture consumes hash-free tails whole -/

theorem lazyVal_all {w : List Char} (hw : ∀ c ∈ w, optValChar c = true) (hne : w ≠ []) :
    lazyVal w = (w, []) := by
  induction w with
  | nil => exact absurd rfl hne
  | cons a t ih =>
    cases t with
    | nil => rfl
    | cons b t2 =>
      have hb : optValChar b = true := hw b (by simp)
      have hdw : (b :: t2).dropWhile isPyWsp = b :: t2 :=
        dropWhile_head_false (fun c hc => by
          rw [head_cons_eq hc]
          exact optValChar_not_pyWsp hb)
      have htail : tailOKfb (b :: t2) = false := by
        unfold tailOKfb
        rw [hdw, leadsWith_head_ne (fun he => optValChar_ne_hash hb he.symm)]
        rfl
      unfold lazyVal
      rw [htail]
      simp only [Bool.false_eq_true, if_false]
      rw [ih (fun c hc => hw c (by simp [hc])) (by simp)]

/-! ## Claim C1: the two tool lists classify hash-free, blastn-free,
vasp-free command text the same way -/

theorem classify_agree {t : List Char}
    (hb : hasSub "blastn".data t = false) (hv : hasSub "vasp".data t = false) :
    classifyCommand fallbackTools t = classifyCommand grammarTools t := by
  unfold classifyCommand grammarTools fallbackTools
  simp only [List.any_cons, List.any_nil, hb, hv, Bool.or_false, Bool.false_or]

/-! ## Claim C1: decomposition of the well-formedness predicate -/

theorem isEmpty_false_ne_nil {l : List Char} (h : l.isEmpty = false) : l ≠ [] := by
  intro he
  subst he
  exact Bool.noConfusion h

theorem bnot_true {b : Bool} (h : (!b) = true) : b = false := by
  cases b
  · rfl
  · exact Bool.noConfusion h

theorem wf_dline_facts {k : List Char} {v : Option (List Char)}
    (h : wfLineB (.dline k v) = true) :
    (2 ≤ k.length ∧ k.head? = some '-' ∧ ∀ c ∈ k, keyChar c = true) ∧
    (∀ w, v = some w →
      w ≠ [] ∧ (∀ c ∈ w, optValChar c = true) ∧ w.head? ≠ some '=') := by
  unfold wfLineB at h
  rw [Bool.and_eq_true, Bool.and_eq_true, Bool.and_eq_true] at h
  obtain ⟨⟨⟨h1, h2⟩, h3⟩, h4⟩ := h
  refine ⟨⟨of_decide_eq_true h1, eq_of_beq h2, List.all_eq_true.mp h3⟩, ?_⟩
  intro w hw
  subst hw
  have h4b : (!w.isEmpty && w.all optValChar && !(w.head? == some '=')) = true := h4
  rw [Bool.and_eq_true, Bool.and_eq_true] at h4b
  obtain ⟨⟨hw1, hw2⟩, hw3⟩ := h4b
  refine ⟨isEmpty_false_ne_nil (bnot_true hw1), List.all_eq_true.mp hw2, ?_⟩
  intro he
  rw [he] at hw3
  exact absurd hw3 (by decide)

theorem wf_cline_facts {t : List Char} (h : wfLineB (.cline t) = true) :
    t ≠ [] ∧ (∀ c ∈ t, ¬ c = '#' ∧ ¬ c = '\n' ∧ ¬ c = '\r') ∧
    (∀ c, t.head? = some c → isPyWsp c = false) ∧
    (∀ c, t.getLast? = some c → isPyWsp c = false) ∧
    hasSub "blastn".data t = false ∧ hasSub "vasp".data t = false := by
  unfold wfLineB at h
  rw [Bool.and_eq_true, Bool.and_eq_true, Bool.and_eq_true, Bool.and_eq_true,
    Bool.and_eq_true] at h
  obtain ⟨⟨⟨⟨⟨hne, hall⟩, hh⟩, hl⟩, hbl⟩, hva⟩ := h
  refine ⟨isEmpty_false_ne_nil (bnot_true hne), ?_,
    ?_, ?_, bnot_true hbl, bnot_true hva⟩
  · intro c hc
    have hc2 := List.all_eq_true.mp hall c hc
    rw [Bool.and_eq_true, Bool.and_eq_true] at hc2
    obtain ⟨⟨hA, hB⟩, hC⟩ := hc2
    exact ⟨beq_eq_false_iff_ne.mp (bnot_true hA),
      beq_eq_false_iff_ne.mp (bnot_true hB),
      beq_eq_false_iff_ne.mp (bnot_true hC)⟩
  · intro c hc
    rw [hc] at hh
    exact bnot_true hh
  · intro c hc
    rw [hc] at hl
    exact bnot_true hl

/-! ## Claim C1: the PEG sbatch rule on canonical directive lines -/

theorem pegOptionKey_on {k X : List Char} (hk2 : 2 ≤ k.length) (hkh : k.head? = some '-')
    (hkc : ∀ c ∈ k, keyChar c = true) (hX : ∀ c, X.head? = some c → keyChar c = false) :
    pegOptionKey (k ++ X) = some (k, X) := by
  have ht : (k ++ X).takeWhile keyChar = k := takeWhile_append_all hkc hX
  have hd : (k ++ X).dropWhile keyChar = X := dropWhile_append_all hkc hX
  unfold pegOptionKey
  rw [ht, hd, if_pos ⟨hk2, hkh⟩]

theorem pegSbatch_form {k X : List Char} (hk2 : 2 ≤ k.length) (hkh : k.head? = some '-')
    (hkc : ∀ c ∈ k, keyChar c = true) (hX : ∀ c, X.head? = some c → keyChar c = false) :
    pegSbatch ("#SBATCH ".data ++ (k ++ X)) =
      some ((if pegValOf X = [] then (k, none) else (k, some (pegValOf X))),
        ((if pegValOf X = [] then X else pegAfterVal X).dropWhile isWsTab).dropWhile
          (fun c => !(c == '\n'))) := by
  have hh2 : ∀ c, (k ++ X).head? = some c → isWsTab c = false := by
    intro c hc
    cases k with
    | nil => exact Option.noConfusion hkh
    | cons a t =>
      have ha : (some a : Option Char) = some '-' := hkh
      rw [head_cons_eq hc, Option.some.inj ha]
      rfl
  have hds : ("#SBATCH ".data ++ (k ++ X)).dropWhile isWsTab
      = "#SBATCH ".data ++ (k ++ X) := rfl
  have h1 : dropLit "#SBATCH".data ("#SBATCH ".data ++ (k ++ X))
      = some (' ' :: (k ++ X)) := rfl
  have h2 : (' ' :: (k ++ X)).dropWhile isWsTab = k ++ X := by
    rw [show (' ' :: (k ++ X)).dropWhile isWsTab = (k ++ X).dropWhile isWsTab from rfl]
    exact dropWhile_head_false hh2
  unfold pegSbatch
  rw [hds, h1]
  simp only [h2, pegOptionKey_on hk2 hkh hkc hX]

theorem pegSbatch_dline_none {k R : List Char} (hk2 : 2 ≤ k.length)
    (hkh : k.head? = some '-') (hkc : ∀ c ∈ k, keyChar c = true) :
    pegSbatch ("#SBATCH ".data ++ (k ++ '\n' :: R)) = some ((k, none), '\n' :: R) := by
  have h := @pegSbatch_form k ('\n' :: R) hk2 hkh hkc (fun c hc => by
    rw [head_cons_eq hc]
    rfl)
  rw [h]
  rfl

theorem pegSbatch_dline_some {k w R : List Char} (hk2 : 2 ≤ k.length)
    (hkh : k.head? = some '-') (hkc : ∀ c ∈ k, keyChar c = true)
    (hwne : w ≠ []) (hwc : ∀ c ∈ w, optValChar c = true) (hwh : w.head? ≠ some '=') :
    pegSbatch ("#SBATCH ".data ++ (k ++ ' ' :: (w ++ '\n' :: R)))
      = some ((k, some w), '\n' :: R) := by
  obtain ⟨wh, wt, rfl⟩ : ∃ wh wt, w = wh :: wt := by
    cases w with
    | nil => exact absurd rfl hwne
    | cons a t => exact ⟨a, t, rfl⟩
  have hwhC : optValChar wh = true := hwc wh (by simp)
  have h := @pegSbatch_form k (' ' :: ((wh :: wt) ++ '\n' :: R)) hk2 hkh hkc (fun c hc => by
    rw [head_cons_eq hc]
    rfl)
  have hdw : ((' ' :: ((wh :: wt) ++ '\n' :: R)).dropWhile isWsTab)
      = (wh :: wt) ++ '\n' :: R := by
    rw [show (' ' :: ((wh :: wt) ++ '\n' :: R)).dropWhile isWsTab
        = ((wh :: wt) ++ '\n' :: R).dropWhile isWsTab from rfl]
    exact dropWhile_head_false (fun c hc => by
      rw [head_cons_eq hc]
      exact not_pyWsp_not_wsTab (optValChar_not_pyWsp hwhC))
  have hEq : pegEqSkip ((wh :: wt) ++ '\n' :: R) = (wh :: wt) ++ '\n' :: R := by
    unfold pegEqSkip
    split
    · next r heq =>
      exfalso
      apply hwh
      simp only [List.cons_append] at heq
      injection heq with hA hB
      show (some wh : Option Char) = some '='
      rw [hA]
    · rfl
  have hval : pegValOf (' ' :: ((wh :: wt) ++ '\n' :: R)) = wh :: wt := by
    unfold pegValOf
    rw [hdw, hEq]
    exact takeWhile_append_all hwc (fun c hc => by
      rw [head_cons_eq hc]
      rfl)
  have haft : pegAfterVal (' ' :: ((wh :: wt) ++ '\n' :: R)) = '\n' :: R := by
    unfold pegAfterVal
    rw [hdw, hEq]
    exact dropWhile_append_all hwc (fun c hc => by
      rw [head_cons_eq hc]
      rfl)
  rw [h]
  simp only [hval, haft, if_neg (List.cons_ne_nil wh wt)]
  rfl

/-! ## Claim C1: the PEG alternatives on command lines -/

theorem pegSbatch_cline_none {th : Char} {tt R : List Char}
    (hws : isPyWsp th = false) (hh : ¬ th = '#') :
    pegSbatch (th :: (tt ++ '\n' :: R)) = none := by
  have hdw : (th :: (tt ++ '\n' :: R)).dropWhile isWsTab = th :: (tt ++ '\n' :: R) :=
    List.dropWhile_cons_of_neg (by simp [not_pyWsp_not_wsTab hws])
  have hlit : dropLit "#SBATCH".data (th :: (tt ++ '\n' :: R)) = none := by
    unfold dropLit
    rw [show ("#SBATCH".data : List Char) = '#' :: "SBATCH".data from rfl]
    rw [leadsWith_head_ne (fun he => hh he.symm)]
    rfl
  unfold pegSbatch
  rw [hdw, hlit]

theorem pegAgentComment_cline_none {th : Char} {tt R : List Char}
    (hws : isPyWsp th = false) (hh : ¬ th = '#') :
    pegAgentComment (th :: (tt ++ '\n' :: R)) = none := by
  have hdw : (th :: (tt ++ '\n' :: R)).dropWhile isWsTab = th :: (tt ++ '\n' :: R) :=
    List.dropWhile_cons_of_neg (by simp [not_pyWsp_not_wsTab hws])
  unfold pegAgentComment
  rw [hdw]
  simp only [if_neg hh]

theorem pegComment_cline_none {th : Char} {tt R : List Char}
    (hws : isPyWsp th = false) (hh : ¬ th = '#') :
    pegComment (th :: (tt ++ '\n' :: R)) = none := by
  have hdw : (th :: (tt ++ '\n' :: R)).dropWhile isWsTab = th :: (tt ++ '\n' :: R) :=
    List.dropWhile_cons_of_neg (by simp [not_pyWsp_not_wsTab hws])
  unfold pegComment
  rw [hdw]
  simp only [if_neg hh]

theorem pegCommand_cline {th : Char} {tt R : List Char}
    (hws : isPyWsp th = false)
    (hall : ∀ c ∈ th :: tt, ¬ c = '#' ∧ ¬ c = '\n' ∧ ¬ c = '\r') :
    pegCommand (th :: (tt ++ '\n' :: R)) = some ('\n' :: R) := by
  have hdw : (th :: (tt ++ '\n' :: R)).dropWhile isWsTab = th :: (tt ++ '\n' :: R) :=
    List.dropWhile_cons_of_neg (by simp [not_pyWsp_not_wsTab hws])
  have hp : ∀ c ∈ th :: tt, (fun c => !(c == '#') && !(c == '\n')) c = true := by
    intro c hc
    simp [(hall c hc).1, (hall c hc).2.1]
  have htw : (th :: (tt ++ '\n' :: R)).takeWhile (fun c => !(c == '#') && !(c == '\n'))
      = th :: tt := by
    rw [show th :: (tt ++ '\n' :: R) = (th :: tt) ++ '\n' :: R from rfl]
    exact takeWhile_append_all hp (fun c hc => by
      rw [head_cons_eq hc]
      rfl)
  have hdw2 : (th :: (tt ++ '\n' :: R)).dropWhile (fun c => !(c == '#') && !(c == '\n'))
      = '\n' :: R := by
    rw [show th :: (tt ++ '\n' :: R) = (th :: tt) ++ '\n' :: R from rfl]
    exact dropWhile_append_all hp (fun c hc => by
      rw [head_cons_eq hc]
      rfl)
  unfold pegCommand
  rw [hdw, htw, hdw2, if_neg (List.cons_ne_nil th tt)]
  rfl

/-! ## Claim C1: one PEG line node on a rendered well-formed line -/

theorem lineStep_cline (idx : Nat) {t R : List Char}
    (ht : wfLineB (.cline t) = true)
    (hR : ∀ c, R.head? = some c → nlChar c = false) :
    lineStep idx (t ++ '\n' :: R) =
      (some { element_type := classifyCommand grammarTools t, value := some (⟨t⟩ : String),
              line_number := idx, raw_line := (⟨t⟩ : String) }, none, R) := by
  obtain ⟨hne, hall, hh, hl, hbl, hva⟩ := wf_cline_facts ht
  obtain ⟨th, tt, rfl⟩ : ∃ th tt, t = th :: tt := by
    cases t with
    | nil => exact absurd rfl hne
    | cons a b => exact ⟨a, b, rfl⟩
  have hws : isPyWsp th = false := hh th rfl
  have hhash : ¬ th = '#' := (hall th (by simp)).1
  have htext : pegCmdText (th :: (tt ++ '\n' :: R)) ('\n' :: R) = th :: tt := by
    unfold pegCmdText nodeTextOf
    have hlen : (th :: (tt ++ '\n' :: R)).length - ('\n' :: R).length
        = (th :: tt).length := by
      simp only [List.length_cons, List.length_append]
      omega
    rw [hlen, show th :: (tt ++ '\n' :: R) = (th :: tt) ++ '\n' :: R from rfl,
      List.take_left]
    exact pyStrip_eq_self hh hl
  have hstrip : pegCmdStripped (th :: tt) = th :: tt := by
    unfold pegCmdStripped
    rw [hasSub_single_false (fun c hc => (hall c hc).1)]
    rfl
  have hnl : ('\n' :: R).dropWhile nlChar = R := by
    rw [show ('\n' :: R).dropWhile nlChar = R.dropWhile nlChar from rfl]
    exact dropWhile_head_false hR
  simp only [List.cons_append]
  unfold lineStep
  rw [pegSbatch_cline_none hws hhash]
  simp only [pegAgentComment_cline_none hws hhash, pegComment_cline_none hws hhash,
    pegCommand_cline hws hall]
  rw [htext, hstrip, hnl, if_neg (List.cons_ne_nil th tt)]

theorem lineStep_dline (idx : Nat) {k : List Char} {v : Option (List Char)} {R : List Char}
    (hd : wfLineB (.dline k v) = true)
    (hR : ∀ c, R.head? = some c → nlChar c = false) :
    ∃ raw : String, lineStep idx (renderLine (.dline k v) ++ '\n' :: R) =
      (some { element_type := "SBATCH", key := some (⟨k⟩ : String),
              value := v.map (fun w => (⟨w⟩ : String)),
              line_number := idx, raw_line := raw }, none, R) := by
  obtain ⟨⟨hk2, hkh, hkc⟩, hv⟩ := wf_dline_facts hd
  have hnl : ('\n' :: R).dropWhile nlChar = R := by
    rw [show ('\n' :: R).dropWhile nlChar = R.dropWhile nlChar from rfl]
    exact dropWhile_head_false hR
  cases v with
  | none =>
    have harg : renderLine (.dline k none) ++ '\n' :: R
        = "#SBATCH ".data ++ (k ++ '\n' :: R) := by
      simp [renderLine, List.append_assoc]
    refine ⟨⟨pegCmdText ("#SBATCH ".data ++ (k ++ '\n' :: R)) ('\n' :: R)⟩, ?_⟩
    rw [harg]
    unfold lineStep
    rw [pegSbatch_dline_none hk2 hkh hkc]
    simp only [hnl]
  | some w =>
    obtain ⟨hwne, hwc, hwh⟩ := hv w rfl
    have harg : renderLine (.dline k (some w)) ++ '\n' :: R
        = "#SBATCH ".data ++ (k ++ ' ' :: (w ++ '\n' :: R)) := by
      simp [renderLine, List.append_assoc]
    refine ⟨⟨pegCmdText ("#SBATCH ".data ++ (k ++ ' ' :: (w ++ '\n' :: R))) ('\n' :: R)⟩, ?_⟩
    rw [harg]
    unfold lineStep
    rw [pegSbatch_dline_some hk2 hkh hkc hwne hwc hwh]
    simp only [hnl]

theorem lineStep_wf (idx : Nat) (l : WfLine) {R : List Char}
    (hl : wfLineB l = true) (hR : ∀ c, R.head? = some c → nlChar c = false) :
    ∃ e : ParsedElement, lineStep idx (renderLine l ++ '\n' :: R) = (some e, none, R) ∧
      e.element_type = lineType l ∧ e.line_number = idx := by
  cases l with
  | dline k v =>
    obtain ⟨raw, heq⟩ := lineStep_dline idx hl hR
    exact ⟨_, heq, rfl, rfl⟩
  | cline t =>
    exact ⟨_, lineStep_cline idx hl hR, rfl, rfl⟩

/-! ## Claim C1: the fallback patterns on rendered well-formed lines -/

theorem takeWhile_all {p : Char → Bool} {xs : List Char} (hx : ∀ c ∈ xs, p c = true) :
    xs.takeWhile p = xs := by
  have := @takeWhile_append_all p xs [] hx (fun c hc => Option.noConfusion hc)
  simpa using this

theorem dropWhile_all {p : Char → Bool} {xs : List Char} (hx : ∀ c ∈ xs, p c = true) :
    xs.dropWhile p = [] := by
  have := @dropWhile_append_all p xs [] hx (fun c hc => Option.noConfusion hc)
  simpa using this

theorem fbSbatch_dline {k : List Char} {v : Option (List Char)}
    (hd : wfLineB (.dline k v) = true) :
    fbSbatch (renderLine (.dline k v)) = some (k, v) := by
  obtain ⟨⟨hk2, hkh, hkc⟩, hv⟩ := wf_dline_facts hd
  have hkne : k ≠ [] := by
    intro he
    subst he
    exact absurd hk2 (by decide)
  cases v with
  | none =>
    have harg : renderLine (.dline k none) = "#SBATCH ".data ++ k := by
      simp [renderLine]
    rw [harg]
    have h1 : dropLit "#SBATCH".data (("#SBATCH ".data ++ k).dropWhile isPyWsp)
        = some (' ' :: k) := rfl
    have htkw : (' ' :: k).takeWhile isPyWsp = ' ' :: k.takeWhile isPyWsp :=
      List.takeWhile_cons_of_pos (by decide)
    have hdwp : (' ' :: k).dropWhile isPyWsp = k := by
      rw [show (' ' :: k).dropWhile isPyWsp = k.dropWhile isPyWsp from rfl]
      exact dropWhile_head_false (fun c hc => keyChar_not_pyWsp (hkc c (by
        cases k with
        | nil => exact Option.noConfusion hc
        | cons a t =>
          rw [head_cons_eq hc]
          simp)))
    have htk : k.takeWhile keyChar = k := takeWhile_all hkc
    have hdk : k.dropWhile keyChar = [] := dropWhile_all hkc
    unfold fbSbatch
    rw [h1]
    simp only [htkw, hdwp, htk, hdk]
    simp [hkne]
  | some w =>
    obtain ⟨hwne, hwc, hwh⟩ := hv w rfl
    obtain ⟨wh, wt, rfl⟩ : ∃ wh wt, w = wh :: wt := by
      cases w with
      | nil => exact absurd rfl hwne
      | cons a t => exact ⟨a, t, rfl⟩
    have hwhp : isPyWsp wh = false := optValChar_not_pyWsp (hwc wh (by simp))
    have harg : renderLine (.dline k (some (wh :: wt)))
        = "#SBATCH ".data ++ (k ++ ' ' :: wh :: wt) := by
      simp [renderLine, List.append_assoc]
    rw [harg]
    have h1 : dropLit "#SBATCH".data
        (("#SBATCH ".data ++ (k ++ ' ' :: wh :: wt)).dropWhile isPyWsp)
        = some (' ' :: (k ++ ' ' :: wh :: wt)) := rfl
    have hkh2 : ∀ c, (k ++ ' ' :: wh :: wt).head? = some c → isPyWsp c = false := by
      intro c hc
      cases k with
      | nil => exact Option.noConfusion hkh
      | cons a t =>
        have ha : (some a : Option Char) = some '-' := hkh
        rw [head_cons_eq hc, Option.some.inj ha]
        rfl
    have htkw : (' ' :: (k ++ ' ' :: wh :: wt)).takeWhile isPyWsp
        = ' ' :: ((k ++ ' ' :: wh :: wt).takeWhile isPyWsp) :=
      List.takeWhile_cons_of_pos (by decide)
    have hdwp : (' ' :: (k ++ ' ' :: wh :: wt)).dropWhile isPyWsp = k ++ ' ' :: wh :: wt := by
      rw [show (' ' :: (k ++ ' ' :: wh :: wt)).dropWhile isPyWsp
          = (k ++ ' ' :: wh :: wt).dropWhile isPyWsp from rfl]
      exact dropWhile_head_false hkh2
    have htk : (k ++ ' ' :: wh :: wt).takeWhile keyChar = k :=
      takeWhile_append_all hkc (fun c hc => by
        rw [head_cons_eq hc]
        rfl)
    have hdk : (k ++ ' ' :: wh :: wt).dropWhile keyChar = ' ' :: wh :: wt :=
      dropWhile_append_all hkc (fun c hc => by
        rw [head_cons_eq hc]
        rfl)
    have hw2 : (' ' :: wh :: wt).takeWhile isPyWsp = [' '] := by
      rw [List.takeWhile_cons_of_pos (by decide : isPyWsp ' ' = true),
        List.takeWhile_cons_of_neg (by simp [hwhp])]
    have hRr : (' ' :: wh :: wt).dropWhile isPyWsp = wh :: wt := by
      rw [show (' ' :: wh :: wt).dropWhile isPyWsp = (wh :: wt).dropWhile isPyWsp from rfl,
        List.dropWhile_cons_of_neg (by simp [hwhp])]
    have hlz : lazyVal (wh :: wt) = (wh :: wt, []) := lazyVal_all hwc (by simp)
    unfold fbSbatch
    rw [h1]
    simp only [htkw, hdwp, htk, hdk, hw2, hRr, hlz]
    simp [hkne]

theorem fbLine_dline (idx : Nat) {k : List Char} {v : Option (List Char)}
    (hd : wfLineB (.dline k v) = true) :
    fbLine idx (renderLine (.dline k v)) =
      (some { element_type := "SBATCH", key := some (⟨k⟩ : String),
              value := v.map (fun w => (⟨w⟩ : String)),
              line_number := idx, raw_line := (⟨renderLine (.dline k v)⟩ : String) },
       none) := by
  unfold fbLine
  rw [fbSbatch_dline hd]

theorem fbSbatch_cline_none {th : Char} {tt2 : List Char}
    (hws : isPyWsp th = false) (hh : ¬ th = '#') :
    fbSbatch (th :: tt2) = none := by
  have hdw : (th :: tt2).dropWhile isPyWsp = th :: tt2 :=
    List.dropWhile_cons_of_neg (by simp [hws])
  have hlit : dropLit "#SBATCH".data (th :: tt2) = none := by
    unfold dropLit
    rw [show ("#SBATCH".data : List Char) = '#' :: "SBATCH".data from rfl,
      leadsWith_head_ne (fun he => hh he.symm)]
    rfl
  unfold fbSbatch
  rw [hdw, hlit]

theorem fbAgent_cline_none {th : Char} {tt2 : List Char}
    (hws : isPyWsp th = false) (hh : ¬ th = '#') :
    fbAgent (th :: tt2) = none := by
  have hdw : (th :: tt2).dropWhile isPyWsp = th :: tt2 :=
    List.dropWhile_cons_of_neg (by simp [hws])
  unfold fbAgent
  rw [hdw]
  simp only [if_neg hh]

theorem fbCommand_cline {th : Char} {tt2 : List Char}
    (hws : isPyWsp th = false) (hh : ¬ th = '#') :
    fbCommand (th :: tt2) = some (th :: tt2) := by
  have hdw : (th :: tt2).dropWhile isPyWsp = th :: tt2 :=
    List.dropWhile_cons_of_neg (by simp [hws])
  unfold fbCommand
  simp only [hdw, if_neg hh]

theorem fbLine_cline (idx : Nat) {t : List Char} (ht : wfLineB (.cline t) = true) :
    fbLine idx (renderLine (.cline t)) =
      (some { element_type := classifyCommand grammarTools t, value := some (⟨t⟩ : String),
              line_number := idx, raw_line := (⟨t⟩ : String) }, none) := by
  obtain ⟨hne, hall, hh, hl, hbl, hva⟩ := wf_cline_facts ht
  obtain ⟨th, tt, rfl⟩ : ∃ th tt, t = th :: tt := by
    cases t with
    | nil => exact absurd rfl hne
    | cons a b => exact ⟨a, b, rfl⟩
  have hws : isPyWsp th = false := hh th rfl
  have hhash : ¬ th = '#' := (hall th (by simp)).1
  have hstrip : pyStrip (th :: tt) = th :: tt := pyStrip_eq_self hh hl
  have hclass := classify_agree hbl hva
  unfold fbLine
  rw [show renderLine (.cline (th :: tt)) = th :: tt from rfl,
    fbSbatch_cline_none hws hhash]
  simp only [fbAgent_cline_none hws hhash, fbCommand_cline hws hhash, hstrip,
    if_neg (List.cons_ne_nil th tt), hclass]

theorem fbLine_wf (idx : Nat) (l : WfLine) (hl : wfLineB l = true) :
    ∃ e : ParsedElement, fbLine idx (renderLine l) = (some e, none) ∧
      e.element_type = lineType l ∧ e.line_number = idx := by
  cases l with
  | dline k v => exact ⟨_, fbLine_dline idx hl, rfl, rfl⟩
  | cline t => exact ⟨_, fbLine_cline idx hl, rfl, rfl⟩

/-! ## Claim C1: assembling whole scripts -/

theorem renderLine_cons {l : WfLine} (h : wfLineB l = true) :
    ∃ c cs, renderLine l = c :: cs ∧ ¬ c = '\n' ∧ ¬ c = '\r' := by
  cases l with
  | dline k v => exact ⟨'#', _, rfl, by decide, by decide⟩
  | cline t =>
    obtain ⟨hne, hall, _⟩ := wf_cline_facts h
    obtain ⟨th, tt, rfl⟩ : ∃ th tt, t = th :: tt := by
      cases t with
      | nil => exact absurd rfl hne
      | cons a b => exact ⟨a, b, rfl⟩
    exact ⟨th, tt, rfl, (hall th (by simp)).2.1, (hall th (by simp)).2.2⟩

theorem scriptOf_cons (l : WfLine) (ls : List WfLine) :
    scriptOf (l :: ls) = renderLine l ++ '\n' :: scriptOf ls := by
  simp [scriptOf]

theorem scriptOf_head_not_nl {ls : List WfLine} (h : ls.all wfLineB = true) :
    ∀ c, (scriptOf ls).head? = some c → nlChar c = false := by
  intro c hc
  cases ls with
  | nil => exact Option.noConfusion hc
  | cons l ls2 =>
    have hl : wfLineB l = true := by
      rw [List.all_cons, Bool.and_eq_true] at h
      exact h.1
    obtain ⟨a, acs, hac, hn, hr⟩ := renderLine_cons hl
    rw [scriptOf_cons, hac] at hc
    rw [head_cons_eq hc]
    unfold nlChar
    rw [decide_eq_false hn, decide_eq_false hr]
    rfl

theorem renderLine_no_nl {l : WfLine} (h : wfLineB l = true) :
    ∀ c ∈ renderLine l, ¬ c = '\n' := by
  cases l with
  | dline k v =>
    obtain ⟨⟨_, _, hkc⟩, hv⟩ := wf_dline_facts h
    intro c hc
    cases v with
    | none =>
      rw [show renderLine (.dline k none) = "#SBATCH ".data ++ k from by
        simp [renderLine]] at hc
      rcases List.mem_append.mp hc with hc | hc
      · exact (by decide : ∀ c ∈ "#SBATCH ".data, ¬ c = '\n') c hc
      · exact keyChar_ne_nl (hkc c hc)
    | some w =>
      obtain ⟨_, hwc, _⟩ := hv w rfl
      rw [show renderLine (.dline k (some w)) = "#SBATCH ".data ++ (k ++ ' ' :: w) from by
        simp [renderLine, List.append_assoc]] at hc
      rcases List.mem_append.mp hc with hc | hc
      · exact (by decide : ∀ c ∈ "#SBATCH ".data, ¬ c = '\n') c hc
      rcases List.mem_append.mp hc with hc | hc
      · exact keyChar_ne_nl (hkc c hc)
      rcases List.mem_cons.mp hc with rfl | hc
      · decide
      · exact not_pyWsp_ne_nl (optValChar_not_pyWsp (hwc c hc))
  | cline t =>
    intro c hc
    exact ((wf_cline_facts h).2.1 c hc).2.1

theorem splitNL_scriptOf {ls : List WfLine} (h : ls.all wfLineB = true) :
    splitNL (scriptOf ls) = ls.map renderLine ++ [[]] := by
  induction ls with
  | nil => rfl
  | cons l ls2 ih =>
    rw [List.all_cons, Bool.and_eq_true] at h
    rw [scriptOf_cons, splitNL_line (renderLine_no_nl h.1), ih h.2]
    rfl

theorem scriptOf_ends_nl : ∀ {ls : List WfLine}, ls ≠ [] →
    ∃ cs, scriptOf ls = cs ++ ['\n'] := by
  intro ls hne
  induction ls with
  | nil => exact absurd rfl hne
  | cons l ls2 ih =>
    cases ls2 with
    | nil =>
      refine ⟨renderLine l, ?_⟩
      rw [scriptOf_cons]
      rfl
    | cons l2 ls3 =>
      obtain ⟨cs, hcs⟩ := ih (by simp)
      refine ⟨renderLine l ++ '\n' :: cs, ?_⟩
      rw [scriptOf_cons, hcs]
      simp

theorem ensureNL_scriptOf {ls : List WfLine} (hne : ls ≠ []) :
    ensureNL (⟨scriptOf ls⟩ : String) = (⟨scriptOf ls⟩ : String) := by
  obtain ⟨cs, hcs⟩ := scriptOf_ends_nl hne
  unfold ensureNL
  rw [show ((⟨scriptOf ls⟩ : String) : String).data = scriptOf ls from rfl, hcs,
    List.getLast?_concat, if_pos rfl]

theorem pegLoop_wf : ∀ (ls : List WfLine) (idx fuel : Nat),
    ls.all wfLineB = true → (scriptOf ls).length < fuel →
    ∃ es : List ParsedElement,
      pegLoop fuel idx (scriptOf ls) = some (es, []) ∧ es.map projTL = projFrom idx ls := by
  intro ls
  induction ls with
  | nil =>
    intro idx fuel h hf
    cases fuel with
    | zero => omega
    | succ f => exact ⟨[], rfl, rfl⟩
  | cons l ls2 ih =>
    intro idx fuel h hf
    rw [List.all_cons, Bool.and_eq_true] at h
    have hR := scriptOf_head_not_nl h.2
    obtain ⟨e, hstep, htype, hline⟩ := lineStep_wf idx l h.1 hR
    obtain ⟨a, acs, hac, _, _⟩ := renderLine_cons h.1
    have hlen : (scriptOf (l :: ls2)).length
        = (renderLine l).length + 1 + (scriptOf ls2).length := by
      rw [scriptOf_cons]
      simp only [List.length_append, List.length_cons]
      omega
    cases fuel with
    | zero => omega
    | succ f =>
      obtain ⟨es, hrec, hproj⟩ := ih (idx + 1) f h.2 (by omega)
      refine ⟨e :: es, ?_, ?_⟩
      · rw [scriptOf_cons]
        unfold pegLoop
        rw [if_neg (by rw [hac]; simp)]
        simp only [hstep]
        rw [if_pos (show (scriptOf ls2).length
            < (renderLine l ++ '\n' :: scriptOf ls2).length by
          simp only [List.length_append, List.length_cons]
          omega)]
        rw [hrec]
        simp
      · have hp : projTL e = (lineType l, idx) := by
          unfold projTL
          rw [htype, hline]
        simp [projFrom, hp, hproj]

theorem fallbackLines_wf : ∀ (ls : List WfLine) (idx : Nat), ls.all wfLineB = true →
    ∃ es, fallbackLines (ls.map renderLine ++ [[]]) idx = (es, []) ∧
      es.map projTL = projFrom idx ls := by
  intro ls
  induction ls with
  | nil =>
    intro idx _
    exact ⟨[], rfl, rfl⟩
  | cons l ls2 ih =>
    intro idx h
    rw [List.all_cons, Bool.and_eq_true] at h
    obtain ⟨e, hfb, htype, hline⟩ := fbLine_wf idx l h.1
    obtain ⟨es, hrec, hproj⟩ := ih (idx + 1) h.2
    refine ⟨e :: es, ?_, ?_⟩
    · show fallbackLines (renderLine l :: (ls2.map renderLine ++ [[]])) idx = (e :: es, [])
      unfold fallbackLines
      simp only [hrec, hfb]
      simp
    · have hp : projTL e = (lineType l, idx) := by
        unfold projTL
        rw [htype, hline]
      simp [projFrom, hp, hproj]

theorem projFrom_length : ∀ (ls : List WfLine) (idx : Nat),
    (projFrom idx ls).length = ls.length := by
  intro ls
  induction ls with
  | nil => intro idx; rfl
  | cons l ls2 ih =>
    intro idx
    simp [projFrom, ih]

/-! ## Claim C1 -/

/-- Claim C1, counterexample: on the well-formed two-line script
`#SBATCH --ntasks 4` / `bwa mem ref.fa reads.fq`, the grammar path and
the fallback path produce element lists of equal length and equal
ordered element types, but every line number differs: the grammar
visitor is post-order and numbers the two elements 0 and 1, while the
fallback enumerates physical lines from 1 and numbers them 1 and 2. The
claimed equality of the `(element_type, line_number)` projections
therefore fails on the line-number component. -/
theorem c1_parser_projection_counterexample :
    wfWitnessScript.all wfLineB = true ∧
    (parserRun (⟨scriptOf wfWitnessScript⟩ : String)).2 = false ∧
    (parserRun (⟨scriptOf wfWitnessScript⟩ : String)).1.1.map projTL
      = [("SBATCH", 0), ("TOOL_COMMAND", 1)] ∧
    (fallbackParse (⟨scriptOf wfWitnessScript⟩ : String)).1.map projTL
      = [("SBATCH", 1), ("TOOL_COMMAND", 2)] ∧
    (parserRun (⟨scriptOf wfWitnessScript⟩ : String)).1.1.map projTL
      ≠ (fallbackParse (⟨scriptOf wfWitnessScript⟩ : String)).1.map projTL := by
  refine ⟨by decide, ?_, ?_, ?_, ?_⟩ <;> decide

/-- Claim C1 (amended): for every well-formed script — canonical
space-form directive lines and comment-free command lines not mentioning
the two grammar-only tools — the grammar parse succeeds (no fallback),
both paths produce one element per line with equal ordered element
types, and the projections agree up to the systematic one-line shift:
the grammar path numbers lines from 0, the fallback from 1. Equal
element counts follow; the full `(element_type, line_number)`
projections are never equal on nonempty scripts. -/
theorem c1_wellformed_parser_agreement (ls : List WfLine) (h : ls.all wfLineB = true) :
    (parserRun (⟨scriptOf ls⟩ : String)).1.1.map projTL = projFrom 0 ls ∧
    (fallbackParse (⟨scriptOf ls⟩ : String)).1.map projTL = projFrom 1 ls ∧
    (parserRun (⟨scriptOf ls⟩ : String)).1.1.length
      = (fallbackParse (⟨scriptOf ls⟩ : String)).1.length := by
  cases ls with
  | nil => exact ⟨rfl, rfl, rfl⟩
  | cons l0 ls0 =>
    have hne : (l0 :: ls0 : List WfLine) ≠ [] := by simp
    obtain ⟨es, hes, hesp⟩ :=
      pegLoop_wf (l0 :: ls0) 0 ((scriptOf (l0 :: ls0)).length + 1) h (by omega)
    obtain ⟨fs, hfs, hfsp⟩ := fallbackLines_wf (l0 :: ls0) 1 h
    have hps : pegScript (⟨scriptOf (l0 :: ls0)⟩ : String) = some (es, []) := by
      unfold pegScript
      rw [show ((⟨scriptOf (l0 :: ls0)⟩ : String) : String).data
          = scriptOf (l0 :: ls0) from rfl]
      exact hes
    have hpr : parserRun (⟨scriptOf (l0 :: ls0)⟩ : String) = ((es, []), false) := by
      unfold parserRun
      rw [ensureNL_scriptOf hne, hps]
    have hfp : fallbackParse (⟨scriptOf (l0 :: ls0)⟩ : String) = (fs, []) := by
      unfold fallbackParse
      rw [show ((⟨scriptOf (l0 :: ls0)⟩ : String) : String).data
          = scriptOf (l0 :: ls0) from rfl, splitNL_scriptOf h]
      exact hfs
    rw [hpr, hfp]
    refine ⟨hesp, hfsp, ?_⟩
    have hL1 : es.length = (l0 :: ls0).length := by
      have := congrArg List.length hesp
      simpa [projFrom_length] using this
    have hL2 : fs.length = (l0 :: ls0).length := by
      have := congrArg List.length hfsp
      simpa [projFrom_length] using this
    simp [hL1, hL2]

/-- Witness for C1 at the two-line well-formed script of the fixture:
the hypotheses hold by evaluation and the agreement theorem applies. -/
theorem c1_wellformed_parser_agreement_witness :
    wfWitnessScript.all wfLineB = true ∧
    ((parserRun (⟨scriptOf wfWitnessScript⟩ : String)).1.1.map projTL
        = projFrom 0 wfWitnessScript ∧
      (fallbackParse (⟨scriptOf wfWitnessScript⟩ : String)).1.map projTL
        = projFrom 1 wfWitnessScript ∧
      (parserRun (⟨scriptOf wfWitnessScript⟩ : String)).1.1.length
        = (fallbackParse (⟨scriptOf wfWitnessScript⟩ : String)).1.length) :=
  ⟨by decide, c1_wellformed_parser_agreement wfWitnessScript (by decide)⟩

end AgentSlurm
